import Mathlib

/-
Verification development for the `to_the_moon` memory-subsystem reference
models: byte-strobe write merging, weighted round-robin arbitration, the MESI
snooping coherence engine, the generation-1 MSI directory system, the byte
memory pools, and the bidirectional serializer.  Each definition is a shallow
embedding of the corresponding Python source; machine integers are modelled
as `Nat` with explicit masking where the source relies on bit width.
-/

namespace Util

/-- Python `x & ~m` on unbounded non-negative ints: keep exactly the bits of
`x` outside of `m`.  Encoded on `Nat` as `x ^^^ (x &&& m)`, which clears the
bits of `m` that are set in `x` and leaves all the other bits of `x` alone. -/
def andNot (x m : Nat) : Nat := x ^^^ (x &&& m)

/-- Byte-strobe merge `apply_wstrb` from `emulation/complete/util.py`; the
byte-for-byte identical function also appears in
`emulation/complete/arbitration_cachecoh/directory.py` and `cache.py`.
For each of the 4 byte lanes, if bit `i` of `wstrb` is set, byte `i` of
`old_value` is replaced with byte `i` of `new_value` with
`result = (result & ~byte_mask) | (new_value & byte_mask)` where
`byte_mask = 0xFF << (8 * i)`. -/
def apply_wstrb (old_value new_value wstrb : Nat) : Nat :=
  (List.range 4).foldl
    (fun result i =>
      if (wstrb >>> i) &&& 1 = 1 then
        andNot result (0xFF <<< (8 * i)) ||| (new_value &&& (0xFF <<< (8 * i)))
      else result)
    old_value

/-- Byte lane `i` of a word: bits `[8*i+7 : 8*i]`. -/
def byte_lane (x i : Nat) : Nat := (x >>> (8 * i)) &&& 0xFF

theorem testBit_andNot (x m j : Nat) :
    (andNot x m).testBit j = (x.testBit j && !(m.testBit j)) := by
  simp only [andNot, Nat.testBit_xor, Nat.testBit_land]
  cases x.testBit j <;> cases m.testBit j <;> rfl

theorem testBit_byte_mask (i j : Nat) :
    (0xFF <<< (8 * i) : Nat).testBit j = decide (8 * i ≤ j ∧ j < 8 * i + 8) := by
  rw [Nat.testBit_shiftLeft]
  have h255 : (0xFF : Nat) = 2 ^ 8 - 1 := by norm_num
  rw [h255, Nat.testBit_two_pow_sub_one]
  by_cases hle : 8 * i ≤ j
  · have h1 : decide (j ≥ 8 * i) = true := by simpa using hle
    rw [h1, Bool.true_and, decide_eq_decide]
    omega
  · have h1 : decide (j ≥ 8 * i) = false := by simpa using hle
    have h2 : ¬(8 * i ≤ j ∧ j < 8 * i + 8) := fun hc => hle hc.1
    simp [h1, h2]

theorem testBit_wstrb_step (r N i j : Nat) :
    ((andNot r (0xFF <<< (8 * i))) ||| (N &&& (0xFF <<< (8 * i)))).testBit j
      = if 8 * i ≤ j ∧ j < 8 * i + 8 then N.testBit j else r.testBit j := by
  rw [Nat.testBit_lor, testBit_andNot, Nat.testBit_land, testBit_byte_mask]
  by_cases h : 8 * i ≤ j ∧ j < 8 * i + 8 <;> simp [h]

theorem strobe_bit_eq_testBit (S i : Nat) :
    ((S >>> i) &&& 1 = 1) ↔ S.testBit i = true := by
  rw [Nat.testBit_to_div_mod, Nat.and_one_is_mod, Nat.shiftRight_eq_div_pow]
  simp

/-- One iteration of the `apply_wstrb` loop, at the bit level. -/
theorem testBit_wstrb_iter (r N S i j : Nat) :
    (if (S >>> i) &&& 1 = 1 then
        andNot r (0xFF <<< (8 * i)) ||| (N &&& (0xFF <<< (8 * i)))
      else r).testBit j
      = if 8 * i ≤ j ∧ j < 8 * i + 8 ∧ S.testBit i = true then N.testBit j
        else r.testBit j := by
  by_cases hS : (S >>> i) &&& 1 = 1
  · have hSb : S.testBit i = true := (strobe_bit_eq_testBit S i).mp hS
    rw [if_pos hS, testBit_wstrb_step]
    by_cases h : 8 * i ≤ j ∧ j < 8 * i + 8
    · rw [if_pos h, if_pos ⟨h.1, h.2, hSb⟩]
    · rw [if_neg h, if_neg (fun hc => h ⟨hc.1, hc.2.1⟩)]
  · have hSb : S.testBit i = false :=
      Bool.eq_false_iff.mpr (fun hb => hS ((strobe_bit_eq_testBit S i).mpr hb))
    rw [if_neg hS, if_neg]
    intro hc
    rw [hSb] at hc
    exact absurd hc.2.2 (by simp)

/-- Bit-level characterization of `apply_wstrb`: bit `j` of the result comes
from `N` when `j` lies in a byte lane whose strobe bit is set, else from `O`. -/
theorem testBit_apply_wstrb (O N S j : Nat) :
    (apply_wstrb O N S).testBit j
      = if j < 32 ∧ S.testBit (j / 8) = true then N.testBit j else O.testBit j := by
  have hrange : List.range 4 = [0, 1, 2, 3] := by decide
  simp only [apply_wstrb, hrange, List.foldl_cons, List.foldl_nil]
  rw [testBit_wstrb_iter, testBit_wstrb_iter, testBit_wstrb_iter, testBit_wstrb_iter]
  rcases Nat.lt_or_ge j 32 with hj | hj
  · have hdiv : j / 8 = 0 ∨ j / 8 = 1 ∨ j / 8 = 2 ∨ j / 8 = 3 := by omega
    have hlane : ∀ m, j / 8 = m →
        ((8 * m ≤ j ∧ j < 8 * m + 8 ∧ S.testBit m = true)
          ↔ (j < 32 ∧ S.testBit (j / 8) = true)) := by
      intro m hm
      constructor
      · intro hc
        exact ⟨hj, by rw [hm]; exact hc.2.2⟩
      · intro hc
        exact ⟨by omega, by omega, by rw [← hm]; exact hc.2⟩
    have hoff : ∀ m, j / 8 ≠ m → ¬(8 * m ≤ j ∧ j < 8 * m + 8 ∧ S.testBit m = true) := by
      intro m hm hc
      exact hm (by omega)
    rcases hdiv with h | h | h | h
    · rw [if_neg (hoff 3 (by omega)), if_neg (hoff 2 (by omega)),
        if_neg (hoff 1 (by omega))]
      by_cases hc : j < 32 ∧ S.testBit (j / 8) = true
      · rw [if_pos ((hlane 0 h).mpr hc), if_pos hc]
      · rw [if_neg (fun hx => hc ((hlane 0 h).mp hx)), if_neg hc]
    · rw [if_neg (hoff 3 (by omega)), if_neg (hoff 2 (by omega)),
        if_neg (hoff 0 (by omega))]
      by_cases hc : j < 32 ∧ S.testBit (j / 8) = true
      · rw [if_pos ((hlane 1 h).mpr hc), if_pos hc]
      · rw [if_neg (fun hx => hc ((hlane 1 h).mp hx)), if_neg hc]
    · rw [if_neg (hoff 3 (by omega)), if_neg (hoff 1 (by omega)),
        if_neg (hoff 0 (by omega))]
      by_cases hc : j < 32 ∧ S.testBit (j / 8) = true
      · rw [if_pos ((hlane 2 h).mpr hc), if_pos hc]
      · rw [if_neg (fun hx => hc ((hlane 2 h).mp hx)), if_neg hc]
    · rw [if_neg (hoff 2 (by omega)), if_neg (hoff 1 (by omega)),
        if_neg (hoff 0 (by omega))]
      by_cases hc : j < 32 ∧ S.testBit (j / 8) = true
      · rw [if_pos ((hlane 3 h).mpr hc), if_pos hc]
      · rw [if_neg (fun hx => hc ((hlane 3 h).mp hx)), if_neg hc]
  · have c0 : ¬(8 * 0 ≤ j ∧ j < 8 * 0 + 8 ∧ S.testBit 0 = true) := fun hc => by omega
    have c1 : ¬(8 * 1 ≤ j ∧ j < 8 * 1 + 8 ∧ S.testBit 1 = true) := fun hc => by omega
    have c2 : ¬(8 * 2 ≤ j ∧ j < 8 * 2 + 8 ∧ S.testBit 2 = true) := fun hc => by omega
    have c3 : ¬(8 * 3 ≤ j ∧ j < 8 * 3 + 8 ∧ S.testBit 3 = true) := fun hc => by omega
    have cR : ¬(j < 32 ∧ S.testBit (j / 8) = true) := fun hc => by omega
    rw [if_neg c3, if_neg c2, if_neg c1, if_neg c0, if_neg cR]

theorem byte_lane_testBit (x i k : Nat) (hk : k < 8) :
    (byte_lane x i).testBit k = x.testBit (8 * i + k) := by
  simp only [byte_lane]
  rw [Nat.testBit_land, Nat.testBit_shiftRight]
  have h255 : (0xFF : Nat) = 2 ^ 8 - 1 := by norm_num
  rw [h255, Nat.testBit_two_pow_sub_one]
  simp [hk, Nat.add_comm]

theorem byte_lane_testBit_high (x i k : Nat) (hk : 8 ≤ k) :
    (byte_lane x i).testBit k = false := by
  simp only [byte_lane]
  rw [Nat.testBit_land]
  have h255 : (0xFF : Nat) = 2 ^ 8 - 1 := by norm_num
  rw [h255, Nat.testBit_two_pow_sub_one]
  simp
  omega

/-- C2.  Byte-strobe write-merge: `apply_wstrb O N S` is the word whose byte
lane `i` (for `i < 4`) is lane `i` of `N` when strobe bit `i` is set and lane
`i` of `O` otherwise; consequently applying the merge twice with the same `N`
and `S` equals applying it once, and every byte lane whose strobe bit is 0 is
bit-for-bit unchanged from `O`. -/
theorem apply_wstrb_byte_merge (O N S : Nat) :
    (∀ i, i < 4 →
        byte_lane (apply_wstrb O N S) i
          = if S.testBit i = true then byte_lane N i else byte_lane O i)
    ∧ apply_wstrb (apply_wstrb O N S) N S = apply_wstrb O N S
    ∧ (∀ i, i < 4 → S.testBit i = false →
        byte_lane (apply_wstrb O N S) i = byte_lane O i) := by
  have hlane : ∀ i, i < 4 →
      byte_lane (apply_wstrb O N S) i
        = if S.testBit i = true then byte_lane N i else byte_lane O i := by
    intro i hi
    apply Nat.eq_of_testBit_eq
    intro k
    rcases Nat.lt_or_ge k 8 with hk | hk
    · rw [byte_lane_testBit _ _ _ hk, testBit_apply_wstrb]
      have hdiv : (8 * i + k) / 8 = i := by omega
      have hlt : 8 * i + k < 32 := by omega
      rw [hdiv]
      by_cases hS : S.testBit i = true
      · rw [if_pos ⟨hlt, hS⟩, if_pos hS, byte_lane_testBit _ _ _ hk]
      · rw [if_neg (fun hc => hS hc.2), if_neg hS, byte_lane_testBit _ _ _ hk]
    · by_cases hS : S.testBit i = true <;>
        simp [hS, byte_lane_testBit_high _ _ _ hk]
  refine ⟨hlane, ?_, ?_⟩
  · apply Nat.eq_of_testBit_eq
    intro j
    rw [testBit_apply_wstrb, testBit_apply_wstrb]
    by_cases h : j < 32 ∧ S.testBit (j / 8) = true <;> simp [h]
  · intro i hi hS
    rw [hlane i hi, hS]
    simp

end Util

namespace Wrr

/-- State of `WeightedRoundRobinArbiter` (both
`emulation/arbitration_cachecoh/weighted_round_robin.py` and
`emulation/complete/weighted_round_robin.py` keep exactly these registers;
weights are validated positive at construction, so they are carried as
naturals, while `remaining_credits` is a Python int and may in principle go
negative, hence `Int`). -/
structure Arbiter where
  num_requesters : Nat
  weights : List Nat
  current_index : Nat
  remaining_credits : Int
  deriving Repr, DecidableEq

/-- Constructor of `WeightedRoundRobinArbiter`: `none` models the
`ValueError` raised on a weight-count mismatch or a non-positive weight, and
the `IndexError` of `self.weights[0]` on an empty weight list. -/
def init (num_requesters : Nat) (weights : List Nat) : Option Arbiter :=
  if weights.length ≠ num_requesters then none
  else if weights.any (fun w => decide (w ≤ 0)) then none
  else match weights with
    | [] => none
    | w0 :: _ => some ⟨num_requesters, weights, 0, (w0 : Int)⟩

/-- The grant vector `grant = [0]*n; grant[i] = 1`. -/
def one_hot (n i : Nat) : List Nat := (List.replicate n 0).set i 1

/-- The scan loop shared by both `arbitrate` variants.  `fuel` is the number
of remaining attempts (`max_attempts - attempts`); attempts are consumed only
by non-granting iterations, exactly as in the Python `while` loop.  Returns
the grant (or `none` when attempts run out) together with the final
`current_index` and `remaining_credits`. -/
def wrr_scan (requests weights : List Nat) (n : Nat) :
    Nat → Nat → Int → Option (List Nat) × Nat × Int
  | 0, current, credits => (none, current, credits)
  | fuel + 1, current, credits =>
      if requests.getD current 0 = 1 then
        let credits1 := credits - 1
        if credits1 = 0 then
          let current1 := (current + 1) % n
          (some (one_hot n current), current1, (weights.getD current1 0 : Int))
        else (some (one_hot n current), current, credits1)
      else
        let current1 := (current + 1) % n
        wrr_scan requests weights n fuel current1 (weights.getD current1 0)

/-- Python `max(l)` for the non-empty lists this model applies it to. -/
def py_max (l : List Nat) : Nat := l.foldl max 0

/-- `WeightedRoundRobinArbiter.arbitrate` of
`emulation/arbitration_cachecoh/weighted_round_robin.py`: attempt bound
`num_requesters * max(weights)`; on exhaustion the fallback returns the
all-zero grant (with whatever state the scan left behind).  `none` models
only the `ValueError` on a request-length mismatch. -/
def arbitrate_cachecoh (a : Arbiter) (requests : List Nat) :
    Option (List Nat × Arbiter) :=
  if requests.length ≠ a.num_requesters then none
  else if requests.sum = 0 then some (List.replicate a.num_requesters 0, a)
  else
    match wrr_scan requests a.weights a.num_requesters
        (a.num_requesters * py_max a.weights) a.current_index
        a.remaining_credits with
    | (some grant, cur, cred) =>
        some (grant, ⟨a.num_requesters, a.weights, cur, cred⟩)
    | (none, cur, cred) =>
        some (List.replicate a.num_requesters 0,
          ⟨a.num_requesters, a.weights, cur, cred⟩)

/-- `WeightedRoundRobinArbiter.arbitrate` of
`emulation/complete/weighted_round_robin.py`: attempt bound
`max_possible_iterations = sum(weights)` (computed at construction; the
weights never change), and on exhaustion it raises
`Exception("abritation hit timeout")`, modelled by `none`. -/
def arbitrate_complete (a : Arbiter) (requests : List Nat) :
    Option (List Nat × Arbiter) :=
  if requests.length ≠ a.num_requesters then none
  else if requests.sum = 0 then some (List.replicate a.num_requesters 0, a)
  else
    match wrr_scan requests a.weights a.num_requesters
        a.weights.sum a.current_index a.remaining_credits with
    | (some grant, cur, cred) =>
        some (grant, ⟨a.num_requesters, a.weights, cur, cred⟩)
    | (none, _, _) => none

theorem le_py_max (l : List Nat) : ∀ w ∈ l, w ≤ py_max l := by
  have key : ∀ (l : List Nat) (a : Nat),
      a ≤ l.foldl max a ∧ ∀ w ∈ l, w ≤ l.foldl max a := by
    intro l
    induction l with
    | nil => intro a; simp
    | cons x xs ih =>
        intro a
        refine ⟨le_trans (le_max_left a x) (ih (max a x)).1, ?_⟩
        intro w hw
        rcases List.mem_cons.mp hw with h | h
        · subst h
          exact le_trans (le_max_right a w) (ih (max a w)).1
        · exact (ih (max a x)).2 w h
  exact (key l 0).2

theorem length_le_sum (l : List Nat) (h : ∀ w ∈ l, 0 < w) :
    l.length ≤ l.sum := by
  induction l with
  | nil => simp
  | cons x xs ih =>
      simp only [List.length_cons, List.sum_cons]
      have hx : 0 < x := h x (List.mem_cons_self x xs)
      have := ih (fun w hw => h w (List.mem_cons_of_mem x hw))
      omega

/-- If some requesting index lies `d` cyclic steps ahead of `current` and at
least `d + 1` attempts remain, the scan returns a one-hot grant at a
requesting index. -/
theorem wrr_scan_success (requests weights : List Nat) (n : Nat) :
    ∀ d current credits fuel, current < n → d < fuel →
      requests.getD ((current + d) % n) 0 = 1 →
      ∃ i cur cred, i < n ∧ requests.getD i 0 = 1 ∧
        wrr_scan requests weights n fuel current credits
          = (some (one_hot n i), cur, cred) := by
  intro d
  induction d with
  | zero =>
      intro current credits fuel hcur hfuel hreq
      match fuel, hfuel with
      | fuel + 1, _ =>
        rw [Nat.add_zero, Nat.mod_eq_of_lt hcur] at hreq
        refine ⟨current, ?_⟩
        rw [wrr_scan, if_pos hreq]
        by_cases hc : credits - 1 = 0
        · exact ⟨_, _, hcur, hreq, by rw [if_pos hc]⟩
        · exact ⟨_, _, hcur, hreq, by rw [if_neg hc]⟩
  | succ d ih =>
      intro current credits fuel hcur hfuel hreq
      match fuel, hfuel with
      | fuel + 1, hfuel =>
        by_cases hnow : requests.getD current 0 = 1
        · refine ⟨current, ?_⟩
          rw [wrr_scan, if_pos hnow]
          by_cases hc : credits - 1 = 0
          · exact ⟨_, _, hcur, hnow, by rw [if_pos hc]⟩
          · exact ⟨_, _, hcur, hnow, by rw [if_neg hc]⟩
        · rw [wrr_scan, if_neg hnow]
          have hn : 0 < n := by omega
          have hcur1 : (current + 1) % n < n := Nat.mod_lt _ hn
          have hreq1 : requests.getD (((current + 1) % n + d) % n) 0 = 1 := by
            rw [Nat.mod_add_mod]
            have : current + 1 + d = current + (d + 1) := by omega
            rw [this]
            exact hreq
          exact ih ((current + 1) % n) _ fuel hcur1 (by omega) hreq1

/-- A successful scan is insensitive to extra fuel. -/
theorem wrr_scan_mono (requests weights : List Nat) (n : Nat) :
    ∀ fuel fuel2 current credits g cur cred, fuel ≤ fuel2 →
      wrr_scan requests weights n fuel current credits = (some g, cur, cred) →
      wrr_scan requests weights n fuel2 current credits = (some g, cur, cred) := by
  intro fuel
  induction fuel with
  | zero =>
      intro fuel2 current credits g cur cred _ h
      rw [wrr_scan] at h
      simp at h
  | succ fuel ih =>
      intro fuel2 current credits g cur cred hle h
      match fuel2, hle with
      | fuel2 + 1, hle =>
        rw [wrr_scan] at h ⊢
        by_cases hnow : requests.getD current 0 = 1
        · rw [if_pos hnow] at h ⊢
          exact h
        · rw [if_neg hnow] at h ⊢
          exact ih fuel2 _ _ g cur cred (by omega) h

end Wrr

namespace Wrr

/-- C4.  Arbitration timeout unreachability: for every arbiter state of the
shape reachable from construction (weights positive and matching the
requester count, `current_index < num_requesters`, positive remaining
credit) and every 0/1 request vector of the correct length containing at
least one 1, both `arbitrate` variants return a one-hot grant whose single 1
is at an index where the request vector is 1, and the bounded-attempts
fallback branch (all-zero fallback in one variant, the fatal
arbitration-timeout exception in the other) is never reached. -/
theorem arbitrate_no_timeout (a : Arbiter) (requests : List Nat)
    (hw : a.weights.length = a.num_requesters)
    (hpos : ∀ w ∈ a.weights, 0 < w)
    (hcur : a.current_index < a.num_requesters)
    (hcred : 0 < a.remaining_credits)
    (hlen : requests.length = a.num_requesters)
    (h01 : ∀ x ∈ requests, x = 0 ∨ x = 1)
    (hone : 1 ∈ requests) :
    ∃ i a1, i < a.num_requesters ∧ requests.getD i 0 = 1 ∧
      arbitrate_cachecoh a requests = some (one_hot a.num_requesters i, a1) ∧
      arbitrate_complete a requests = some (one_hot a.num_requesters i, a1) := by
  obtain ⟨j, hj, hjv⟩ := List.mem_iff_getElem.mp hone
  have hn : 0 < a.num_requesters := by omega
  have hjn : j < a.num_requesters := by omega
  have hjD : requests.getD j 0 = 1 := by
    rw [List.getD_eq_getElem _ _ hj]; exact hjv
  have hd : ∃ d, d < a.num_requesters ∧ (a.current_index + d) % a.num_requesters = j := by
    by_cases hle : a.current_index ≤ j
    · refine ⟨j - a.current_index, by omega, ?_⟩
      have heq : a.current_index + (j - a.current_index) = j := by omega
      rw [heq, Nat.mod_eq_of_lt hjn]
    · refine ⟨a.num_requesters - a.current_index + j, by omega, ?_⟩
      have heq : a.current_index + (a.num_requesters - a.current_index + j)
          = a.num_requesters + j := by omega
      rw [heq, Nat.add_mod_left, Nat.mod_eq_of_lt hjn]
  obtain ⟨d, hdn, hdj⟩ := hd
  have hreqd : requests.getD ((a.current_index + d) % a.num_requesters) 0 = 1 := by
    rw [hdj]; exact hjD
  obtain ⟨i, c, cr, hin, hiv, hscan⟩ :=
    wrr_scan_success requests a.weights a.num_requesters d a.current_index
      a.remaining_credits a.num_requesters hcur hdn hreqd
  have hwne : a.weights ≠ [] := by
    intro h
    rw [h] at hw
    simp at hw
    omega
  have hmax1 : 1 ≤ py_max a.weights := by
    obtain ⟨w, hwmem⟩ := List.exists_mem_of_ne_nil a.weights hwne
    exact le_trans (hpos w hwmem) (le_py_max _ w hwmem)
  have hfcc : a.num_requesters ≤ a.num_requesters * py_max a.weights :=
    le_mul_of_one_le_right (Nat.zero_le _) hmax1
  have hfcm : a.num_requesters ≤ a.weights.sum :=
    hw ▸ length_le_sum a.weights hpos
  have hsum : ¬(requests.sum = 0) := by
    intro h
    have := List.sum_eq_zero_iff.mp h 1 hone
    omega
  refine ⟨i, ⟨a.num_requesters, a.weights, c, cr⟩, hin, hiv, ?_, ?_⟩
  · have hbig := wrr_scan_mono requests a.weights a.num_requesters
      a.num_requesters (a.num_requesters * py_max a.weights) a.current_index
      a.remaining_credits _ _ _ hfcc hscan
    unfold arbitrate_cachecoh
    rw [if_neg (fun h => h hlen), if_neg hsum, hbig]
  · have hbig := wrr_scan_mono requests a.weights a.num_requesters
      a.num_requesters a.weights.sum a.current_index
      a.remaining_credits _ _ _ hfcm hscan
    unfold arbitrate_complete
    rw [if_neg (fun h => h hlen), if_neg hsum, hbig]

/-- Witness for C4: a concrete arbiter (2 requesters, weights `[1, 5]`) and
request vector `[0, 1]`. -/
theorem arbitrate_no_timeout_witness :
    ∃ i a1, i < (2 : Nat) ∧ [0, 1].getD i 0 = 1 ∧
      arbitrate_cachecoh ⟨2, [1, 5], 0, 1⟩ [0, 1] = some (one_hot 2 i, a1) ∧
      arbitrate_complete ⟨2, [1, 5], 0, 1⟩ [0, 1] = some (one_hot 2 i, a1) :=
  arbitrate_no_timeout ⟨2, [1, 5], 0, 1⟩ [0, 1] (by decide) (by decide)
    (by decide) (by decide) (by decide) (by decide) (by decide)

end Wrr

namespace Wrr

/-- Lane containing offset `r` in the partition of `[0, sum ws)` by the
weights: `lane_of ws r = i` when `sum (take i ws) ≤ r < sum (take (i+1) ws)`. -/
def lane_of : List Nat → Nat → Nat
  | [], _ => 0
  | w :: ws, r => if r < w then 0 else lane_of ws (r - w) + 1

theorem lane_of_spec (ws : List Nat) (r : Nat) (hpos : ∀ w ∈ ws, 0 < w)
    (hr : r < ws.sum) :
    lane_of ws r < ws.length ∧
    (ws.take (lane_of ws r)).sum ≤ r ∧
    r < (ws.take (lane_of ws r + 1)).sum := by
  induction ws generalizing r with
  | nil => simp at hr
  | cons w ws ih =>
      by_cases h : r < w
      · refine ⟨?_, ?_, ?_⟩ <;> simp [lane_of, h]
      · have hw : w ≤ r := by omega
        have hr2 : r - w < ws.sum := by
          simp only [List.sum_cons] at hr
          omega
        obtain ⟨ih1, ih2, ih3⟩ :=
          ih (r - w) (fun x hx => hpos x (List.mem_cons_of_mem w hx)) hr2
        refine ⟨?_, ?_, ?_⟩
        · simp [lane_of, h]
          omega
        · simp only [lane_of, if_neg h, List.take_succ_cons, List.sum_cons]
          omega
        · simp only [lane_of, if_neg h, List.take_succ_cons, List.sum_cons]
          omega

theorem lane_of_eq (ws : List Nat) (r i : Nat) (hi : i < ws.length)
    (h1 : (ws.take i).sum ≤ r) (h2 : r < (ws.take (i + 1)).sum) :
    lane_of ws r = i := by
  induction ws generalizing r i with
  | nil => simp at hi
  | cons w ws ih =>
      cases i with
      | zero =>
          simp only [List.take_succ_cons, List.take_zero, List.sum_cons,
            List.sum_nil, Nat.add_zero] at h2
          simp [lane_of, h2]
      | succ i =>
          simp only [List.take_succ_cons, List.sum_cons] at h1 h2
          have hw : w ≤ r := by omega
          have hnlt : ¬(r < w) := by omega
          simp only [lane_of, if_neg hnlt]
          rw [ih (r - w) i (by simpa using hi) (by omega) (by omega)]

/-- Arbiter state after serving `r` offsets of the current weight window:
`current_index` is the lane of `r` and `remaining_credits` the unserved part
of that lane. -/
def lane_state (ws : List Nat) (r : Nat) : Arbiter :=
  ⟨ws.length, ws, lane_of ws r,
    (((ws.take (lane_of ws r + 1)).sum - r : Nat) : Int)⟩

/-- State of a freshly constructed standalone arbiter after `t` calls of
`arbitrate` with the all-ones request vector. -/
def all_ones_state (ws : List Nat) : Nat → Option Arbiter
  | 0 => init ws.length ws
  | t + 1 =>
      (all_ones_state ws t).bind
        (fun a =>
          (arbitrate_cachecoh a (List.replicate a.num_requesters 1)).map Prod.snd)

/-- Grant returned by call number `t` (0-based) of `arbitrate` with the
all-ones request vector, starting from a freshly constructed arbiter. -/
def all_ones_grant (ws : List Nat) (t : Nat) : Option (List Nat) :=
  (all_ones_state ws t).bind
    (fun a =>
      (arbitrate_cachecoh a (List.replicate a.num_requesters 1)).map Prod.fst)

theorem sum_take_le_sum (ws : List Nat) (m : Nat) : (ws.take m).sum ≤ ws.sum := by
  conv_rhs => rw [← List.sum_take_add_sum_drop ws m]
  exact Nat.le_add_right _ _

theorem all_ones_step (ws : List Nat) (hpos : ∀ w ∈ ws, 0 < w) (hne : ws ≠ [])
    (r : Nat) (hr : r < ws.sum) :
    arbitrate_cachecoh (lane_state ws r) (List.replicate ws.length 1)
      = some (one_hot ws.length (lane_of ws r), lane_state ws ((r + 1) % ws.sum)) := by
  obtain ⟨hl, hC1, hC2⟩ := lane_of_spec ws r hpos hr
  have hn : 0 < ws.length := List.length_pos.mpr hne
  have hmax1 : 1 ≤ py_max ws := by
    obtain ⟨w, hw⟩ := List.exists_mem_of_ne_nil ws hne
    exact le_trans (hpos w hw) (le_py_max ws w hw)
  have hreql : (List.replicate ws.length 1).length = ws.length :=
    List.length_replicate _ _
  have hreqs : (List.replicate ws.length 1).sum = ws.length := by
    rw [List.sum_replicate]; simp
  have hgetD : (List.replicate ws.length 1).getD (lane_of ws r) 0 = 1 := by
    rw [List.getD_eq_getElem _ _ (by rw [hreql]; exact hl), List.getElem_replicate]
  obtain ⟨f, hf⟩ : ∃ f, ws.length * py_max ws = f + 1 :=
    ⟨ws.length * py_max ws - 1, by
      have : 0 < ws.length * py_max ws := Nat.mul_pos hn hmax1
      omega⟩
  unfold arbitrate_cachecoh
  simp only [lane_state]
  rw [if_neg (fun h => h hreql), if_neg (by rw [hreqs]; omega), hf, wrr_scan,
    if_pos hgetD]
  by_cases hcase : (ws.take (lane_of ws r + 1)).sum = r + 1
  · have hcred0 : ((((ws.take (lane_of ws r + 1)).sum - r : Nat)) : Int) - 1 = 0 := by
      rw [hcase]
      simp
    rw [if_pos hcred0]
    by_cases hlast : r + 1 < ws.sum
    · have hl1 : lane_of ws r + 1 < ws.length := by
        by_contra hcon
        have heq : lane_of ws r + 1 = ws.length := by omega
        rw [heq, List.take_length] at hcase
        omega
      have hmod : (lane_of ws r + 1) % ws.length = lane_of ws r + 1 :=
        Nat.mod_eq_of_lt hl1
      have hmodW : (r + 1) % ws.sum = r + 1 := Nat.mod_eq_of_lt hlast
      have hsucc := List.sum_take_succ ws (lane_of ws r + 1) hl1
      have hwpos : 0 < ws[lane_of ws r + 1] :=
        hpos _ (List.getElem_mem hl1)
      have hlane1 : lane_of ws (r + 1) = lane_of ws r + 1 :=
        lane_of_eq ws (r + 1) (lane_of ws r + 1) hl1 (by omega) (by omega)
      have hgd : ws.getD ((lane_of ws r + 1) % ws.length) 0 = ws[lane_of ws r + 1] := by
        rw [hmod, List.getD_eq_getElem _ _ hl1]
      simp only [lane_state, hmodW, hlane1, Option.some.injEq, Prod.mk.injEq,
        Arbiter.mk.injEq, true_and]
      refine ⟨hmod, ?_⟩
      rw [hgd]
      omega
    · have hr1 : r + 1 = ws.sum := by omega
      have hl1n : lane_of ws r + 1 = ws.length := by
        by_contra hcon
        have hl1 : lane_of ws r + 1 < ws.length := by omega
        have hsucc := List.sum_take_succ ws (lane_of ws r + 1) hl1
        have hwpos : 0 < ws[lane_of ws r + 1] :=
          hpos _ (List.getElem_mem hl1)
        have hle := sum_take_le_sum ws (lane_of ws r + 1 + 1)
        omega
      have hmod : (lane_of ws r + 1) % ws.length = 0 := by
        rw [hl1n, Nat.mod_self]
      have hmodW : (r + 1) % ws.sum = 0 := by
        rw [hr1, Nat.mod_self]
      obtain ⟨w0, ws2, rfl⟩ : ∃ w0 ws2, ws = w0 :: ws2 := by
        cases ws with
        | nil => exact absurd rfl hne
        | cons a l => exact ⟨a, l, rfl⟩
      have hw0 : 0 < w0 := hpos w0 (List.mem_cons_self _ _)
      have hlane0 : lane_of (w0 :: ws2) 0 = 0 := by
        simp [lane_of, hw0]
      simp only [lane_state, hmodW, hlane0, Option.some.injEq, Prod.mk.injEq,
        Arbiter.mk.injEq, true_and]
      refine ⟨hmod, ?_⟩
      rw [hmod]
      simp [List.take_succ_cons]
  · have hgt : r + 1 < (ws.take (lane_of ws r + 1)).sum := by omega
    have hcredne : ¬(((((ws.take (lane_of ws r + 1)).sum - r : Nat)) : Int) - 1 = 0) := by
      intro h
      omega
    rw [if_neg hcredne]
    have hrW : r + 1 < ws.sum :=
      Nat.lt_of_lt_of_le hgt (sum_take_le_sum ws _)
    have hmodW : (r + 1) % ws.sum = r + 1 := Nat.mod_eq_of_lt hrW
    have hlane : lane_of ws (r + 1) = lane_of ws r :=
      lane_of_eq ws (r + 1) (lane_of ws r) hl (by omega) hgt
    simp only [lane_state, hmodW, hlane, Option.some.injEq, Prod.mk.injEq,
      Arbiter.mk.injEq, true_and]
    omega

theorem all_ones_state_eq (ws : List Nat) (hpos : ∀ w ∈ ws, 0 < w)
    (hne : ws ≠ []) :
    ∀ t, all_ones_state ws t = some (lane_state ws (t % ws.sum)) := by
  have hW : 0 < ws.sum := by
    obtain ⟨w0, ws2, rfl⟩ : ∃ w0 ws2, ws = w0 :: ws2 := by
      cases ws with
      | nil => exact absurd rfl hne
      | cons a l => exact ⟨a, l, rfl⟩
    have := hpos w0 (List.mem_cons_self _ _)
    simp only [List.sum_cons]
    omega
  intro t
  induction t with
  | zero =>
      have hany : ws.any (fun w => decide (w ≤ 0)) = false := by
        rw [List.any_eq_false]
        intro w hw
        simp only [decide_eq_true_eq, Nat.not_le]
        exact hpos w hw
      obtain ⟨w0, ws2, rfl⟩ : ∃ w0 ws2, ws = w0 :: ws2 := by
        cases ws with
        | nil => exact absurd rfl hne
        | cons a l => exact ⟨a, l, rfl⟩
      have hw0 : 0 < w0 := hpos w0 (List.mem_cons_self _ _)
      show init (w0 :: ws2).length (w0 :: ws2) = _
      unfold init
      rw [if_neg (show ¬((w0 :: ws2).length ≠ (w0 :: ws2).length) from fun h => h rfl)]
      rw [hany, if_neg Bool.false_ne_true, Nat.zero_mod]
      simp [lane_state, lane_of, hw0, List.take_succ_cons]
  | succ t ih =>
      rw [all_ones_state, ih, Option.some_bind]
      have hnr : (lane_state ws (t % ws.sum)).num_requesters = ws.length := rfl
      rw [hnr, all_ones_step ws hpos hne (t % ws.sum) (Nat.mod_lt _ hW)]
      simp only [Option.map_some']
      rw [Nat.mod_add_mod]

theorem all_ones_grant_eq (ws : List Nat) (hpos : ∀ w ∈ ws, 0 < w)
    (hne : ws ≠ []) (t : Nat) :
    all_ones_grant ws t
      = some (one_hot ws.length (lane_of ws (t % ws.sum))) := by
  have hW : 0 < ws.sum := by
    obtain ⟨w0, ws2, rfl⟩ : ∃ w0 ws2, ws = w0 :: ws2 := by
      cases ws with
      | nil => exact absurd rfl hne
      | cons a l => exact ⟨a, l, rfl⟩
    have := hpos w0 (List.mem_cons_self _ _)
    simp only [List.sum_cons]
    omega
  rw [all_ones_grant, all_ones_state_eq ws hpos hne t, Option.some_bind]
  have hnr : (lane_state ws (t % ws.sum)).num_requesters = ws.length := rfl
  rw [hnr, all_ones_step ws hpos hne (t % ws.sum) (Nat.mod_lt _ hW)]
  simp

theorem one_hot_inj (n a b : Nat) (ha : a < n) (hb : b < n)
    (h : one_hot n a = one_hot n b) : a = b := by
  by_contra hab
  have hla : a < ((List.replicate n 0).set a 1).length := by simp; omega
  have hlb : a < ((List.replicate n 0).set b 1).length := by simp; omega
  have h1 : (one_hot n a).getD a 0 = 1 := by
    unfold one_hot
    rw [List.getD_eq_getElem _ _ hla]
    exact List.getElem_set_self _
  have h2 : (one_hot n b).getD a 0 = 0 := by
    unfold one_hot
    rw [List.getD_eq_getElem _ _ hlb, List.getElem_set_ne (fun hc => hab hc.symm)]
    exact List.getElem_replicate _ _
  rw [h] at h1
  rw [h1] at h2
  exact absurd h2 (by omega)

theorem filter_range_eq_interval (W a b : Nat) (hab : a + b ≤ W)
    (p : Nat → Bool) (hp : ∀ r, r < W → (p r = true ↔ a ≤ r ∧ r < a + b)) :
    (List.range W).filter p = List.range' a b := by
  have hsplit : List.range' 0 a ++ List.range' a b ++ List.range' (a + b) (W - a - b)
      = List.range' 0 W := by
    have t1 := List.range'_append 0 a b 1
    have t1a : List.range' 0 a ++ List.range' a b = List.range' 0 (b + a) := by
      simpa using t1
    rw [t1a]
    have t2 := List.range'_append 0 (b + a) (W - a - b) 1
    have t2a : List.range' 0 (b + a) ++ List.range' (a + b) (W - a - b)
        = List.range' 0 (W - a - b + (b + a)) := by
      have e : 0 + 1 * (b + a) = a + b := by omega
      rw [e] at t2
      exact t2
    rw [t2a]
    congr 1
    omega
  rw [List.range_eq_range', ← hsplit, List.filter_append, List.filter_append]
  have h1 : (List.range' 0 a).filter p = [] := by
    rw [List.filter_eq_nil_iff]
    intro r hr
    obtain ⟨i, hi, rfl⟩ := List.mem_range'.mp hr
    intro hpr
    have := (hp (0 + 1 * i) (by omega)).mp hpr
    omega
  have h2 : (List.range' a b).filter p = List.range' a b := by
    rw [List.filter_eq_self]
    intro r hr
    obtain ⟨i, hi, rfl⟩ := List.mem_range'.mp hr
    exact (hp (a + 1 * i) (by omega)).mpr ⟨by omega, by omega⟩
  have h3 : (List.range' (a + b) (W - a - b)).filter p = [] := by
    rw [List.filter_eq_nil_iff]
    intro r hr
    obtain ⟨i, hi, rfl⟩ := List.mem_range'.mp hr
    intro hpr
    have := (hp (a + b + 1 * i) (by omega)).mp hpr
    omega
  rw [h1, h2, h3, List.nil_append, List.append_nil]

/-- C3.  Weighted round-robin fairness: starting from a freshly constructed
standalone `WeightedRoundRobinArbiter` with positive weights `ws`, with every
requester active on every call, within every window of `sum ws` consecutive
`arbitrate` calls the set of call offsets granted to requester `i` is exactly
the interval starting at `sum (take i ws)` of length `w_i`: each requester is
granted exactly `w_i` times per window, those grants are consecutive, and the
windows serve requesters in index order starting from the requester that is
current at the start of the window (requester 0, the window start state). -/
theorem wrr_all_ones_fairness (ws : List Nat) (hpos : ∀ w ∈ ws, 0 < w)
    (hne : ws ≠ []) (k i : Nat) (hi : i < ws.length) :
    (List.range ws.sum).filter
        (fun r =>
          decide (all_ones_grant ws (k * ws.sum + r)
            = some (one_hot ws.length i)))
      = List.range' ((ws.take i).sum) (ws.getD i 0) := by
  have hCw : (ws.take i).sum + ws.getD i 0 = (ws.take (i + 1)).sum := by
    rw [List.sum_take_succ ws i hi, List.getD_eq_getElem _ _ hi]
  have hCle : (ws.take (i + 1)).sum ≤ ws.sum := sum_take_le_sum ws (i + 1)
  apply filter_range_eq_interval _ _ _ (by omega)
  intro r hr
  have hmod : (k * ws.sum + r) % ws.sum = r := by
    rw [Nat.mul_comm, Nat.mul_add_mod, Nat.mod_eq_of_lt hr]
  rw [all_ones_grant_eq ws hpos hne, hmod]
  constructor
  · intro hdec
    have heq := Option.some.inj (of_decide_eq_true hdec)
    obtain ⟨hl, hC1, hC2⟩ := lane_of_spec ws r hpos hr
    have hli : lane_of ws r = i := one_hot_inj _ _ _ hl hi heq
    rw [hli] at hC1 hC2
    omega
  · intro ⟨h1, h2⟩
    have hli : lane_of ws r = i :=
      lane_of_eq ws r i hi h1 (by omega)
    rw [hli]
    exact decide_eq_true rfl

/-- Witness for C3: weights `[1, 2]`, window `k = 1`, requester `i = 1`. -/
theorem wrr_all_ones_fairness_witness :
    (List.range ([1, 2] : List Nat).sum).filter
        (fun r =>
          decide (all_ones_grant [1, 2] (1 * ([1, 2] : List Nat).sum + r)
            = some (one_hot ([1, 2] : List Nat).length 1)))
      = List.range' (([1, 2] : List Nat).take 1).sum (([1, 2] : List Nat).getD 1 0) :=
  wrr_all_ones_fairness [1, 2] (by decide) (by decide) 1 1 (by decide)

end Wrr

namespace Util

/-- Witness for C2 at concrete inputs (old `0x12345678`, new `0xAABBCCDD`,
strobe `0b1010`). -/
theorem apply_wstrb_byte_merge_witness :
    (byte_lane (apply_wstrb 0x12345678 0xAABBCCDD 0xA) 3
      = if Nat.testBit 0xA 3 = true then byte_lane 0xAABBCCDD 3
        else byte_lane 0x12345678 3)
    ∧ Nat.testBit 0xA 0 = false
    ∧ byte_lane (apply_wstrb 0x12345678 0xAABBCCDD 0xA) 0 = byte_lane 0x12345678 0 :=
  ⟨(apply_wstrb_byte_merge 0x12345678 0xAABBCCDD 0xA).1 3 (by decide), by decide,
   (apply_wstrb_byte_merge 0x12345678 0xAABBCCDD 0xA).2.2 0 (by decide) (by decide)⟩

end Util

namespace MemCtrl

/-- The AXI record of `emulation/mem_sim.py` (also
`emulation/complete/axi_request.py`): valid/instr/ready flags, 32-bit
address, 32-bit write data, 4-bit write strobe, 32-bit read data. -/
structure axi_request where
  mem_valid : Bool
  mem_instr : Bool
  mem_ready : Bool
  mem_addr : Nat
  mem_wdata : Nat
  mem_wstrb : Nat
  mem_rdata : Nat
  deriving Repr, DecidableEq

/-- `MemoryController.write` of `emulation/mem_sim.py` (the same code, made
`async`, is `emulation/complete/memory.py`).  The Python dict `sram` is
modelled as a total map with reads of absent keys defaulting to 0, exactly
the behavior of its `read`.  Note the source really does use the nibble
masks `0x000F/0x00F0/0x0F00/0xF000` for its four "bytes", consumes the
strobe bits lowest-first but pairs them with `byte3` downwards, and builds
`data_to_write` starting from 0 rather than from the currently stored
value. -/
def write (sram : Nat → Nat) (address data write_strobe : Nat) : Nat → Nat :=
  let byte0 := data &&& 0x000F
  let byte1 := data &&& 0x00F0
  let byte2 := data &&& 0x0F00
  let byte3 := data &&& 0xF000
  let d0 : Nat := 0
  let t0 := write_strobe
  let d1 := if t0 % 2 = 1 then d0 ||| byte3 else d0
  let t1 := t0 / 2
  let d2 := if t1 % 2 = 1 then d1 ||| byte2 else d1
  let t2 := t1 / 2
  let d3 := if t2 % 2 = 1 then d2 ||| byte1 else d2
  let t3 := t2 / 2
  let d4 := if t3 % 2 = 1 then d3 ||| byte0 else d3
  fun a => if a = address then d4 else sram a

/-- `MemoryController.read`: dict lookup with default 0. -/
def read (sram : Nat → Nat) (address : Nat) : Nat := sram address

/-- `MemoryController.axi_handler`: dispatch on `mem_wstrb` (0 = read,
otherwise write); returns the updated store together with the response. -/
def axi_handler (sram : Nat → Nat) (request : axi_request) :
    (Nat → Nat) × axi_request :=
  if request.mem_valid = true then
    if request.mem_wstrb = 0 then
      (sram, { request with mem_rdata := read sram request.mem_addr, mem_ready := true })
    else
      (write sram request.mem_addr request.mem_wdata request.mem_wstrb,
        { request with mem_ready := true })
  else (sram, request)

/-- C7 (code bug).  The plain memory controller is documented (spec section
4.1 together with 4.10) to merge writes byte-granularly into the previously
stored value, identically to `apply_wstrb`; the code instead masks four
nibbles of the new data, pairs strobe bit 0 with the `0xF000` mask, and
discards the old stored value.  At stored value `0x11223344`, write data
`0xAABBCCDD`, strobe `0b0001` the claimed merge is `0x112233DD`, but the
code stores `0xC000`. -/
theorem mem_ctrl_write_nibble_bug :
    (axi_handler (fun a => if a = 5 then 0x11223344 else 0)
        ⟨true, false, false, 5, 0xAABBCCDD, 0b0001, 0⟩).1 5 = 0xC000
    ∧ Util.apply_wstrb 0x11223344 0xAABBCCDD 0b0001 = 0x112233DD
    ∧ (0xC000 : Nat) ≠ 0x112233DD := by
  refine ⟨by rfl, ?_, by decide⟩
  decide

end MemCtrl

namespace Pool

/-- Python dict update `m[k] = v`, with the dict modelled as a map to
`Option` (absent keys are `none`). -/
def dict_set (m : Nat → Option Nat) (k v : Nat) : Nat → Option Nat :=
  fun a => if a = k then some v else m a

/-- Python `m.get(k, d)`. -/
def dict_get (m : Nat → Option Nat) (k d : Nat) : Nat := (m k).getD d

/-- `MemoryPool` of `emulation/arbitration_cachecoh/memorypool.py`
(`StrictMemoryPool` of `mesi_test.py` is identical except for read/write
counters that do not affect the stored data). -/
structure MemoryPool where
  BASE_ADDR : Nat
  SIZE : Nat
  mem : Nat → Option Nat

/-- `MemoryPool._valid`: the address lies in `[BASE_ADDR, BASE_ADDR+SIZE)`. -/
def valid_addr (p : MemoryPool) (addr : Nat) : Bool :=
  decide (p.BASE_ADDR ≤ addr ∧ addr < p.BASE_ADDR + p.SIZE)

/-- The loop of `MemoryPool.write`: bytes are stored one at a time as they
are validated; on the first out-of-range byte a `ValueError` is raised
(`Except.error`) carrying the pool state at that moment, because the Python
object keeps the bytes already stored by the failed call. -/
def write_loop (addr : Nat) : MemoryPool → List Nat → Nat → Except MemoryPool MemoryPool
  | p, [], _ => .ok p
  | p, b :: rest, i =>
      if valid_addr p (addr + i) then
        write_loop addr { p with mem := dict_set p.mem (addr + i) b } rest (i + 1)
      else .error p

/-- `MemoryPool.write(addr, data)`. -/
def write (p : MemoryPool) (addr : Nat) (data : List Nat) :
    Except MemoryPool MemoryPool :=
  write_loop addr p data 0

/-- `MemoryPool.read(addr, size)`: `none` models the out-of-bounds
`ValueError`; absent bytes default to 0. -/
def read (p : MemoryPool) (addr size : Nat) : Option (List Nat) :=
  (List.range size).foldl
    (fun acc i =>
      acc.bind (fun data =>
        if valid_addr p (addr + i) then
          some (data ++ [dict_get p.mem (addr + i) 0])
        else none))
    (some [])

/-- Storing a list of bytes unconditionally (what the write loop does on the
prefix it has already validated). -/
def store_bytes (addr : Nat) : MemoryPool → List Nat → Nat → MemoryPool
  | p, [], _ => p
  | p, b :: rest, i =>
      store_bytes addr { p with mem := dict_set p.mem (addr + i) b } rest (i + 1)

/-- Counterexample for C8: the pool covers `[0x1000, 0x1040)`; writing two
bytes at `0x103F` raises out-of-bounds, but the first byte has already been
stored by the failed call — the read view of `0x103F` changes from `[0]` to
`[1]`, so the write is not all-or-nothing. -/
theorem memorypool_write_not_atomic :
    (match write ⟨0x1000, 64, fun _ => none⟩ 0x103F [1, 2] with
      | .error p2 => some (read p2 0x103F 1)
      | .ok _ => none) = some (some [1])
    ∧ read ⟨0x1000, 64, fun _ => none⟩ 0x103F 1 = some [0] :=
  ⟨rfl, rfl⟩

theorem valid_addr_set (p : MemoryPool) (m : Nat → Option Nat) (a : Nat) :
    valid_addr { p with mem := m } a = valid_addr p a := rfl

theorem write_loop_ok (addr : Nat) :
    ∀ (data : List Nat) (i : Nat) (p : MemoryPool),
      (∀ k, k < data.length → valid_addr p (addr + (i + k)) = true) →
      write_loop addr p data i = .ok (store_bytes addr p data i) := by
  intro data
  induction data with
  | nil => intro i p _; rfl
  | cons b rest ih =>
      intro i p hvalid
      have h0 : valid_addr p (addr + i) = true := by
        have := hvalid 0 (by simp)
        simpa using this
      rw [write_loop, if_pos h0, store_bytes]
      apply ih
      intro k hk
      have := hvalid (k + 1) (by simp; omega)
      rw [valid_addr_set]
      have he : addr + (i + 1 + k) = addr + (i + (k + 1)) := by omega
      rw [he]
      exact this

theorem write_loop_error (addr : Nat) :
    ∀ (data : List Nat) (i j : Nat) (p : MemoryPool),
      j < data.length →
      valid_addr p (addr + (i + j)) = false →
      (∀ k, k < j → valid_addr p (addr + (i + k)) = true) →
      write_loop addr p data i = .error (store_bytes addr p (data.take j) i) := by
  intro data
  induction data with
  | nil => intro i j p hj; simp at hj
  | cons b rest ih =>
      intro i j p hj hbad hgood
      cases j with
      | zero =>
          have h0 : valid_addr p (addr + i) = false := by
            have := hbad
            simpa using this
          rw [write_loop, if_neg (by rw [h0]; simp)]
          rfl
      | succ j =>
          have h0 : valid_addr p (addr + i) = true := by
            have := hgood 0 (by omega)
            simpa using this
          rw [write_loop, if_pos h0, List.take_succ_cons, store_bytes]
          apply ih
          · simpa using hj
          · rw [valid_addr_set]
            have he : addr + (i + 1 + j) = addr + (i + (j + 1)) := by omega
            rw [he]
            exact hbad
          · intro k hk
            rw [valid_addr_set]
            have he : addr + (i + 1 + k) = addr + (i + (k + 1)) := by omega
            rw [he]
            exact hgood (k + 1) (by omega)

theorem store_bytes_get_untouched (addr : Nat) :
    ∀ (data : List Nat) (i : Nat) (p : MemoryPool) (a d : Nat),
      (∀ k, k < data.length → a ≠ addr + (i + k)) →
      dict_get (store_bytes addr p data i).mem a d = dict_get p.mem a d := by
  intro data
  induction data with
  | nil => intro i p a d _; rfl
  | cons b rest ih =>
      intro i p a d hne
      rw [store_bytes, ih]
      · have hne0 : a ≠ addr + i := by
          have := hne 0 (by simp)
          simpa using this
        simp [dict_get, dict_set, hne0]
      · intro k hk
        have := hne (k + 1) (by simp; omega)
        have he : addr + (i + 1 + k) = addr + (i + (k + 1)) := by omega
        rw [he]
        exact this

theorem store_bytes_get (addr : Nat) :
    ∀ (data : List Nat) (i : Nat) (p : MemoryPool) (k : Nat),
      k < data.length →
      dict_get (store_bytes addr p data i).mem (addr + (i + k)) 0
        = data.getD k 0 := by
  intro data
  induction data with
  | nil => intro i p k hk; simp at hk
  | cons b rest ih =>
      intro i p k hk
      cases k with
      | zero =>
          rw [store_bytes, store_bytes_get_untouched]
          · simp [dict_get, dict_set]
          · intro k hk
            omega
      | succ k =>
          rw [store_bytes]
          have he : addr + (i + (k + 1)) = addr + (i + 1 + k) := by omega
          rw [he, ih _ _ k (by simpa using hk)]
          simp

/-- C8 amended.  A `MemoryPool` write raises an out-of-bounds error as soon
as it reaches the first touched byte outside `[base, base+size)`, but the
bytes at valid addresses before that point are already stored when it raises
(the failed call is not all-or-nothing); a write whose touched range lies
entirely in range stores every byte; reading an in-range byte that was never
written returns 0. -/
theorem memorypool_write_spec (p : MemoryPool) (addr : Nat) (data : List Nat) :
    (∀ j, j < data.length → valid_addr p (addr + j) = false →
      (∀ i, i < j → valid_addr p (addr + i) = true) →
      write p addr data = .error (store_bytes addr p (data.take j) 0))
    ∧ ((∀ i, i < data.length → valid_addr p (addr + i) = true) →
        write p addr data = .ok (store_bytes addr p data 0)
        ∧ ∀ i, i < data.length →
            dict_get (store_bytes addr p data 0).mem (addr + i) 0 = data.getD i 0)
    ∧ (∀ a, valid_addr p a = true → p.mem a = none → read p a 1 = some [0]) := by
  refine ⟨?_, ?_, ?_⟩
  · intro j hj hbad hgood
    rw [write, write_loop_error addr data 0 j p hj (by simpa using hbad)
      (fun k hk => by simpa using hgood k hk)]
  · intro hall
    constructor
    · rw [write, write_loop_ok addr data 0 p (fun k hk => by simpa using hall k hk)]
    · intro i hi
      have := store_bytes_get addr data 0 p i hi
      simpa using this
  · intro a hv hm
    simp only [read, List.range_succ, List.range_zero, List.nil_append,
      List.foldl_cons, List.foldl_nil, Option.some_bind, Nat.add_zero]
    rw [if_pos hv]
    simp [dict_get, hm]

/-- Witness for the amended C8 at a concrete pool: writing `[7, 8, 9]` at
`0x103E` into the 64-byte pool based at `0x1000` fails at offset 2 with the
two valid bytes already stored. -/
theorem memorypool_write_spec_witness :
    write ⟨0x1000, 64, fun _ => none⟩ 0x103E [7, 8, 9]
      = .error (store_bytes 0x103E ⟨0x1000, 64, fun _ => none⟩ ([7, 8, 9].take 2) 0) :=
  (memorypool_write_spec ⟨0x1000, 64, fun _ => none⟩ 0x103E [7, 8, 9]).1 2
    (by decide) (by rfl) (by intro i hi; interval_cases i <;> rfl)

end Pool

namespace Util

/-- Pointwise update of a map modelling a Python dict with lazy defaults. -/
def fupd {α : Type} (f : Nat → α) (k : Nat) (v : α) : Nat → α :=
  fun a => if a = k then v else f a

theorem fupd_same {α : Type} (f : Nat → α) (k : Nat) (v : α) : fupd f k v k = v := by
  simp [fupd]

theorem fupd_other {α : Type} (f : Nat → α) (k : Nat) (v : α) (a : Nat) (h : a ≠ k) :
    fupd f k v a = f a := by
  simp [fupd, h]

end Util

namespace Msi

/-- `MSIState` of
`emulation/complete/arbitration_cachecoh/msi_data_types.py`. -/
inductive MSIState where
  | INVALID
  | SHARED
  | MODIFIED
  deriving Repr, DecidableEq

/-- `ProcessorEvent`. -/
inductive ProcessorEvent where
  | PR_RD
  | PR_WR
  deriving Repr, DecidableEq

/-- `SnoopEvent`. -/
inductive SnoopEvent where
  | BUS_RD
  | BUS_RDX
  | BUS_UPGR
  deriving Repr, DecidableEq

/-- `CoherenceCmd`. -/
inductive CoherenceCmd where
  | BUS_RD
  | BUS_RDX
  | BUS_UPGR
  | EVICT_CLEAN
  | EVICT_DIRTY
  | SNOOP_BUS_RD
  | SNOOP_BUS_RDX
  | SNOOP_BUS_UPGR
  deriving Repr, DecidableEq

/-- The `IntEnum` values of `CoherenceCmd` (1 to 5, and 17 to 19). -/
def cmd_val : CoherenceCmd → Nat
  | .BUS_RD => 1
  | .BUS_RDX => 2
  | .BUS_UPGR => 3
  | .EVICT_CLEAN => 4
  | .EVICT_DIRTY => 5
  | .SNOOP_BUS_RD => 17
  | .SNOOP_BUS_RDX => 18
  | .SNOOP_BUS_UPGR => 19

/-- Modelled from the spec: `TransitionResult` lives in the `msi` module,
which is imported by `cache.py`, `directory.py` and `test_msi.py` but absent
from the sources; spec section 3 gives its fields as next state, an optional
bus/coherence command to issue, and a flush flag (and every construction
site in `msi_functions.py` passes them positionally in that order). -/
structure TransitionResult where
  next_state : MSIState
  issue_cmd : Option CoherenceCmd
  flush : Bool
  deriving Repr, DecidableEq

/-- `pack_cmd` of `msi_functions.py`:
`(payload << 16) | ((core_id & 0xFF) << 8) | (int(cmd) & 0xFF)`. -/
def pack_cmd (cmd : CoherenceCmd) (core_id : Nat) (payload : Nat) : Nat :=
  (payload <<< 16) ||| ((core_id &&& 0xFF) <<< 8) ||| (cmd_val cmd &&& 0xFF)

/-- `unpack_cmd`: returns `(cmd, core_id, payload)`. -/
def unpack_cmd (word : Nat) : Nat × Nat × Nat :=
  (word &&& 0xFF, (word >>> 8) &&& 0xFF, word >>> 16)

/-- `on_processor_event` of `msi_functions.py`. -/
def on_processor_event (state : MSIState) (event : ProcessorEvent) :
    TransitionResult :=
  match state with
  | .INVALID =>
      match event with
      | .PR_RD => ⟨.SHARED, some .BUS_RD, false⟩
      | .PR_WR => ⟨.MODIFIED, some .BUS_RDX, false⟩
  | .SHARED =>
      match event with
      | .PR_RD => ⟨.SHARED, none, false⟩
      | .PR_WR => ⟨.MODIFIED, some .BUS_UPGR, false⟩
  | .MODIFIED => ⟨.MODIFIED, none, false⟩

/-- `on_snoop_event` of `msi_functions.py`. -/
def on_snoop_event (state : MSIState) (event : SnoopEvent) : TransitionResult :=
  match state with
  | .INVALID => ⟨.INVALID, none, false⟩
  | .SHARED =>
      match event with
      | .BUS_RD => ⟨.SHARED, none, false⟩
      | .BUS_RDX => ⟨.INVALID, none, false⟩
      | .BUS_UPGR => ⟨.INVALID, none, false⟩
  | .MODIFIED =>
      match event with
      | .BUS_RD => ⟨.SHARED, none, true⟩
      | .BUS_RDX => ⟨.INVALID, none, true⟩
      | .BUS_UPGR => ⟨.MODIFIED, none, false⟩

/-- Python `int.bit_length()`, computed structurally (the fuel argument
starts at the number itself, which bounds the number of halvings). -/
def bit_length_aux : Nat → Nat → Nat
  | _, 0 => 0
  | 0, _ + 1 => 0
  | fuel + 1, m + 1 => bit_length_aux fuel ((m + 1) / 2) + 1

def bit_length (n : Nat) : Nat := bit_length_aux n n

/-- `CacheLine` of `cache.py`: MSI state plus one 32-bit data word; lazily
created lines default to `INVALID`/0, so the cache is modelled as a total
map with that default. -/
structure CacheLine where
  state : MSIState := .INVALID
  data : Nat := 0
  deriving Repr, DecidableEq

/-- `DirectoryEntry` of `directory.py`: global MSI state plus sharer
bitmask (bit per cache), with the same lazy-default convention. -/
structure DirectoryEntry where
  state : MSIState := .INVALID
  sharers : Nat := 0
  deriving Repr, DecidableEq

/-- `DirectoryEntry.owner`: the owning cache id when the entry is MODIFIED
with exactly one sharer bit set (`bit_length() - 1` of the mask), `none`
otherwise. -/
def DirectoryEntry.owner (e : DirectoryEntry) : Option Nat :=
  if e.state ≠ MSIState.MODIFIED then none
  else if e.sharers = 0 then none
  else if e.sharers &&& (e.sharers - 1) ≠ 0 then none
  else some (bit_length e.sharers - 1)

/-- The generation-1 two-cache-plus-directory system of `test_msi.py`:
two `CacheController`s (core ids 0 and 1) and one `DirectoryController`
owning directory entries and memory.  All Python dicts are modelled as
total maps with the lazy defaults of `_line` / `_entry` / `memory.get`. -/
structure SysState where
  c0 : Nat → CacheLine
  c1 : Nat → CacheLine
  entries : Nat → DirectoryEntry
  memory : Nat → Option Nat

/-- A freshly built `TestSystem`. -/
def init_sys : SysState :=
  ⟨fun _ => {}, fun _ => {}, fun _ => {}, fun _ => none⟩

/-- Lines of the cache registered under `core_id` (the directory's
`cache_ports` dict holds exactly ids 0 and 1). -/
def get_lines (s : SysState) (core : Nat) : Nat → CacheLine :=
  if core = 0 then s.c0 else s.c1

def set_lines (s : SysState) (core : Nat) (l : Nat → CacheLine) : SysState :=
  if core = 0 then { s with c0 := l } else { s with c1 := l }

/-- `CacheController._handle_snoop`: look up the line, unpack the snoop
command, run the snoop table, flush dirty data if asked, update the local
state.  `none` models the `ValueError` on an unknown snoop command. -/
def handle_snoop (lines : Nat → CacheLine) (addr packed_cmd : Nat) :
    Option (Nat × (Nat → CacheLine)) :=
  let line := lines addr
  let cmd := (unpack_cmd packed_cmd).1
  let event? : Option SnoopEvent :=
    if cmd = cmd_val .SNOOP_BUS_RD then some .BUS_RD
    else if cmd = cmd_val .SNOOP_BUS_RDX then some .BUS_RDX
    else if cmd = cmd_val .SNOOP_BUS_UPGR then some .BUS_UPGR
    else none
  event?.map (fun event =>
    let tr := on_snoop_event line.state event
    let flush_data := if tr.flush then line.data else 0
    (flush_data, Util.fupd lines addr { line with state := tr.next_state }))

/-- `DirectoryController._send_snoop`: build the snoop request and call the
target cache's AXI handler synchronously; `none` models a `KeyError` on an
unregistered core id or an error inside the cache.  The response's
`mem_ready` flag is the `axi_request` default (the cache's snoop path
deliberately leaves it alone), so the acknowledgment check passes. -/
def send_snoop (s : SysState) (target_core addr : Nat) (snoop_cmd : CoherenceCmd)
    (requester : Nat) : Option (Nat × SysState) :=
  let packed := pack_cmd snoop_cmd requester 0
  if target_core = 0 then
    (handle_snoop s.c0 addr packed).map (fun r => (r.1, { s with c0 := r.2 }))
  else if target_core = 1 then
    (handle_snoop s.c1 addr packed).map (fun r => (r.1, { s with c1 := r.2 }))
  else none

/-- `DirectoryController._bus_rd`. -/
def dir_bus_rd (s : SysState) (requester addr : Nat) : Option (Nat × SysState) :=
  let entry := s.entries addr
  if entry.state = .INVALID then
    some ((s.memory addr).getD 0,
      { s with entries := Util.fupd s.entries addr ⟨.SHARED, 1 <<< requester⟩ })
  else if entry.state = .SHARED then
    some ((s.memory addr).getD 0,
      { s with entries := Util.fupd s.entries addr { entry with sharers := entry.sharers ||| (1 <<< requester) } })
  else
    match entry.owner with
    | some owner =>
        if owner ≠ requester then
          (send_snoop s owner addr .SNOOP_BUS_RD requester).map (fun r =>
            let s1 := { r.2 with memory := Util.fupd r.2.memory addr (some r.1) }
            let sharers1 := (entry.sharers ||| (1 <<< owner)) ||| (1 <<< requester)
            let s2 := { s1 with entries := Util.fupd s1.entries addr ⟨.SHARED, sharers1⟩ }
            ((s2.memory addr).getD 0, s2))
        else
          some ((s.memory addr).getD 0,
            { s with entries := Util.fupd s.entries addr ⟨.SHARED, entry.sharers ||| (1 <<< requester)⟩ })
    | none =>
        some ((s.memory addr).getD 0,
          { s with entries := Util.fupd s.entries addr ⟨.SHARED, entry.sharers ||| (1 <<< requester)⟩ })

/-- Snoop every sharer of `entry_sharers` other than `requester` (the
`for c in range(self.num_cores)` loops of `_bus_rdx` / `_bus_upgr`,
`num_cores = 2`). -/
def snoop_sharer_step (entry_sharers requester addr : Nat) (cmd : CoherenceCmd)
    (st : SysState) (c : Nat) : Option SysState :=
  if c ≠ requester ∧ (entry_sharers >>> c) &&& 1 = 1 then
    (send_snoop st c addr cmd requester).map Prod.snd
  else some st

def snoop_other_sharers (s : SysState) (entry_sharers requester addr : Nat)
    (cmd : CoherenceCmd) : Option SysState :=
  (snoop_sharer_step entry_sharers requester addr cmd s 0).bind
    (fun s1 => snoop_sharer_step entry_sharers requester addr cmd s1 1)

/-- `DirectoryController._bus_rdx`. -/
def dir_bus_rdx (s : SysState) (requester addr : Nat) : Option (Nat × SysState) :=
  let entry := s.entries addr
  let data := (s.memory addr).getD 0
  if entry.state = .INVALID then
    some (data, { s with entries := Util.fupd s.entries addr ⟨.MODIFIED, 1 <<< requester⟩ })
  else if entry.state = .SHARED then
    (snoop_other_sharers s entry.sharers requester addr .SNOOP_BUS_RDX).map
      (fun s1 =>
        (data, { s1 with entries := Util.fupd s1.entries addr ⟨.MODIFIED, 1 <<< requester⟩ }))
  else
    match entry.owner with
    | some owner =>
        if owner ≠ requester then
          (send_snoop s owner addr .SNOOP_BUS_RDX requester).map (fun r =>
            let s1 := { r.2 with memory := Util.fupd r.2.memory addr (some r.1) }
            (r.1, { s1 with entries := Util.fupd s1.entries addr ⟨.MODIFIED, 1 <<< requester⟩ }))
        else
          some (data, { s with entries := Util.fupd s.entries addr ⟨.MODIFIED, 1 <<< requester⟩ })
    | none =>
        some (data, { s with entries := Util.fupd s.entries addr ⟨.MODIFIED, 1 <<< requester⟩ })

/-- `DirectoryController._bus_upgr`: from SHARED, invalidate the other
sharers without a data transfer; from any other state fall back to
`_bus_rdx`. -/
def dir_bus_upgr (s : SysState) (requester addr : Nat) : Option (Nat × SysState) :=
  let entry := s.entries addr
  if entry.state = .SHARED then
    (snoop_other_sharers s entry.sharers requester addr .SNOOP_BUS_UPGR).map
      (fun s1 =>
        ((s1.memory addr).getD 0,
          { s1 with entries := Util.fupd s1.entries addr ⟨.MODIFIED, 1 <<< requester⟩ }))
  else
    dir_bus_rdx s requester addr

/-- `DirectoryController._evict_clean`. -/
def dir_evict_clean (s : SysState) (requester addr : Nat) : SysState :=
  let entry := s.entries addr
  let e1 : DirectoryEntry := { entry with sharers := Util.andNot entry.sharers (1 <<< requester) }
  let e2 : DirectoryEntry :=
    if e1.sharers = 0 then { e1 with state := .INVALID }
    else if e1.state = .MODIFIED ∧ e1.owner = none then { e1 with state := .SHARED }
    else e1
  { s with entries := Util.fupd s.entries addr e2 }

/-- `DirectoryController._evict_dirty`: write back, then clean-evict. -/
def dir_evict_dirty (s : SysState) (requester addr data : Nat) : SysState :=
  dir_evict_clean { s with memory := Util.fupd s.memory addr (some data) } requester addr

/-- `DirectoryController._handle_coherence`. -/
def dir_handle_coherence (s : SysState) (addr packed_cmd : Nat) :
    Option (Nat × SysState) :=
  let u := unpack_cmd packed_cmd
  let cmd := u.1
  let requester := u.2.1
  let payload := u.2.2
  if cmd = cmd_val .BUS_RD then dir_bus_rd s requester addr
  else if cmd = cmd_val .BUS_RDX then dir_bus_rdx s requester addr
  else if cmd = cmd_val .BUS_UPGR then dir_bus_upgr s requester addr
  else if cmd = cmd_val .EVICT_CLEAN then some (0, dir_evict_clean s requester addr)
  else if cmd = cmd_val .EVICT_DIRTY then some (0, dir_evict_dirty s requester addr payload)
  else none

/-- `CacheController._send_dir_cmd` followed by the directory's
`axi_handler` on the coherence path (`mem_valid=True`, `mem_instr=True`):
returns the directory's `mem_rdata`.  The directory acknowledges every
valid request, so the `RuntimeError` check never fires. -/
def send_dir_cmd (s : SysState) (core_id : Nat) (cmd : CoherenceCmd) (addr : Nat)
    (payload : Nat) : Option (Nat × SysState) :=
  dir_handle_coherence s addr (pack_cmd cmd core_id payload)

/-- `CacheController._cpu_read`. -/
def cpu_read (s : SysState) (core_id addr : Nat) : Option (Nat × SysState) :=
  let lines := get_lines s core_id
  let line := lines addr
  let tr := on_processor_event line.state .PR_RD
  match tr.issue_cmd with
  | some c =>
      (send_dir_cmd s core_id c addr 0).map (fun r =>
        (r.1, set_lines r.2 core_id
          (Util.fupd (get_lines r.2 core_id) addr ⟨tr.next_state, r.1⟩)))
  | none =>
      some (line.data, set_lines s core_id
        (Util.fupd lines addr { line with state := tr.next_state }))

/-- `CacheController._cpu_write`: note the directory's response data is
discarded (`_ = self._send_dir_cmd(...)`); the write merges into the line's
prior local contents. -/
def cpu_write (s : SysState) (core_id addr wdata wstrb : Nat) :
    Option (Nat × SysState) :=
  let lines := get_lines s core_id
  let line := lines addr
  let tr := on_processor_event line.state .PR_WR
  let merged := Util.apply_wstrb line.data wdata wstrb
  match tr.issue_cmd with
  | some c =>
      (send_dir_cmd s core_id c addr 0).map (fun r =>
        (merged, set_lines r.2 core_id
          (Util.fupd (get_lines r.2 core_id) addr ⟨tr.next_state, merged⟩)))
  | none =>
      some (merged, set_lines s core_id
        (Util.fupd lines addr ⟨tr.next_state, merged⟩))

/-- `CacheController.evict`. -/
def cache_evict (s : SysState) (core_id addr : Nat) : Option SysState :=
  let lines := get_lines s core_id
  let line := lines addr
  if line.state = .MODIFIED then
    (send_dir_cmd s core_id .EVICT_DIRTY addr line.data).map (fun r =>
      set_lines r.2 core_id
        (Util.fupd (get_lines r.2 core_id) addr { line with state := .INVALID }))
  else if line.state = .SHARED then
    (send_dir_cmd s core_id .EVICT_CLEAN addr 0).map (fun r =>
      set_lines r.2 core_id
        (Util.fupd (get_lines r.2 core_id) addr { line with state := .INVALID }))
  else
    some (set_lines s core_id
      (Util.fupd lines addr { line with state := .INVALID }))

/-- `DirectoryController.axi_handler` on the non-coherent path
(`mem_instr=False`): a direct memory read (`wstrb = 0`) or a byte-strobe
merged write. -/
def dir_direct_access (s : SysState) (addr wdata wstrb : Nat) : Nat × SysState :=
  if wstrb = 0 then ((s.memory addr).getD 0, s)
  else
    let old_value := (s.memory addr).getD 0
    let merged := Util.apply_wstrb old_value wdata wstrb
    (merged, { s with memory := Util.fupd s.memory addr (some merged) })

/-- One complete cache operation of the two-cache system, issued through a
cache's AXI entry point (`cache_id` other than 0 selects cache 1, exactly as
the test system dispatches). -/
inductive MsiOp where
  | read (cache_id addr : Nat)
  | write (cache_id addr wdata wstrb : Nat)
  | evict (cache_id addr : Nat)

def run_op (s : SysState) : MsiOp → Option SysState
  | .read cache_id addr =>
      (cpu_read s (if cache_id = 0 then 0 else 1) addr).map Prod.snd
  | .write cache_id addr wdata wstrb =>
      (cpu_write s (if cache_id = 0 then 0 else 1) addr wdata wstrb).map Prod.snd
  | .evict cache_id addr =>
      cache_evict s (if cache_id = 0 then 0 else 1) addr

def run_ops (s : SysState) : List MsiOp → Option SysState
  | [] => some s
  | op :: rest => (run_op s op).bind (fun s1 => run_ops s1 rest)

end Msi

namespace Msi

theorem apply_wstrb_full (X : Nat) (hX : X < 2 ^ 32) : Util.apply_wstrb 0 X 0xF = X := by
  apply Nat.eq_of_testBit_eq
  intro j
  rw [Util.testBit_apply_wstrb]
  by_cases hj : j < 32
  · have h4 : ∀ k, k < 4 → Nat.testBit 0xF k = true := by decide
    have := h4 (j / 8) (by omega)
    simp [hj, this]
  · have hx : X.testBit j = false :=
      Nat.testBit_eq_false_of_lt
        (Nat.lt_of_lt_of_le hX (Nat.pow_le_pow_right (by norm_num) (by omega)))
    simp [hj, Nat.zero_testBit, hx]

/-- C5.  MSI ownership transfer in the generation-1 two-cache-plus-directory
system: cache 0 performs a full-strobe CPU write of `X` to `addr` (reaching
MODIFIED), then cache 1 performs a full-strobe CPU write of `Y` to the same
address; afterwards cache 0's line is INVALID, the directory's memory holds
`X` (flushed by the ownership-transfer snoop, before any further read), and
cache 1's line is MODIFIED holding `Y`. -/
theorem msi_ownership_transfer (addr X Y : Nat) (hX : X < 2 ^ 32) (hY : Y < 2 ^ 32) :
    ((cpu_write init_sys 0 addr X 0xF).bind (fun r1 =>
        (cpu_write r1.2 1 addr Y 0xF).map (fun r2 =>
          ((r2.2.c0 addr).state, r2.2.memory addr,
            (r2.2.c1 addr).state, (r2.2.c1 addr).data))))
      = some (.INVALID, some X, .MODIFIED, Y) := by
  have hp1 : unpack_cmd (pack_cmd .BUS_RDX 0 0) = (2, 0, 0) := by decide
  have hp2 : unpack_cmd (pack_cmd .BUS_RDX 1 0) = (2, 1, 0) := by decide
  have hp3 : unpack_cmd (pack_cmd .SNOOP_BUS_RDX 1 0) = (18, 1, 0) := by decide
  simp [cpu_write, get_lines, set_lines, send_dir_cmd, dir_handle_coherence,
    dir_bus_rdx, send_snoop, handle_snoop, on_processor_event, on_snoop_event,
    init_sys, Util.fupd, hp1, hp2, hp3, cmd_val, DirectoryEntry.owner,
    bit_length, bit_length_aux, apply_wstrb_full X hX, apply_wstrb_full Y hY]

/-- Witness for C5 at `addr = 100`, `X = 0xDEADBEEF`, `Y = 0x12345678`. -/
theorem msi_ownership_transfer_witness :
    ((cpu_write init_sys 0 100 0xDEADBEEF 0xF).bind (fun r1 =>
        (cpu_write r1.2 1 100 0x12345678 0xF).map (fun r2 =>
          ((r2.2.c0 100).state, r2.2.memory 100,
            (r2.2.c1 100).state, (r2.2.c1 100).data))))
      = some (.INVALID, some 0xDEADBEEF, .MODIFIED, 0x12345678) :=
  msi_ownership_transfer 100 0xDEADBEEF 0x12345678 (by decide) (by decide)

theorem byte_lane_zero_of_strobe_clear (wdata wstrb i : Nat) (hi : i < 4)
    (hs : wstrb.testBit i = false) :
    Util.byte_lane (Util.apply_wstrb 0 wdata wstrb) i = 0 := by
  apply Nat.eq_of_testBit_eq
  intro k
  rcases Nat.lt_or_ge k 8 with hk | hk
  · rw [Util.byte_lane_testBit _ _ _ hk, Util.testBit_apply_wstrb]
    have hdiv : (8 * i + k) / 8 = i := by omega
    rw [hdiv, hs]
    simp
  · rw [Util.byte_lane_testBit_high _ _ _ hk]
    simp

/-- C10 (implicit).  In the generation-1 MSI cache controller, a CPU write
to a line in INVALID state discards the data value the directory returns
for its BUS_RDX and merges the write data into the line's prior local
contents (0 for a line this cache never touched): after seeding the
directory's memory with `V` through the direct (non-coherent) write path,
a write miss by cache 0 leaves the line holding
`apply_wstrb 0 wdata wstrb`, a read from that cache returns that value
while memory still holds `V`, and every byte lane whose strobe bit is 0
reads back as 0. -/
theorem msi_write_miss_discards_fetch (addr V wdata wstrb : Nat) (hV : V < 2 ^ 32) :
    ((cpu_write (dir_direct_access init_sys addr V 0xF).2 0 addr wdata wstrb).bind
        (fun r2 =>
          (cpu_read r2.2 0 addr).map (fun r3 => (r3.1, r3.2.memory addr))))
      = some (Util.apply_wstrb 0 wdata wstrb, some V)
    ∧ ∀ i, i < 4 → wstrb.testBit i = false →
        Util.byte_lane (Util.apply_wstrb 0 wdata wstrb) i = 0 := by
  constructor
  · have hp1 : unpack_cmd (pack_cmd .BUS_RDX 0 0) = (2, 0, 0) := by decide
    simp [cpu_write, cpu_read, get_lines, set_lines, send_dir_cmd,
      dir_handle_coherence, dir_bus_rdx, dir_direct_access, on_processor_event,
      init_sys, Util.fupd, hp1, cmd_val, apply_wstrb_full V hV]
  · intro i hi hs
    exact byte_lane_zero_of_strobe_clear wdata wstrb i hi hs

/-- Witness for C10 at `addr = 500`, `V = 0x11223344`, write data `0xAA`,
strobe `0b0001` (lane 1 reads back as 0 although memory holds `0x22` there). -/
theorem msi_write_miss_discards_fetch_witness :
    ((cpu_write (dir_direct_access init_sys 500 0x11223344 0xF).2 0 500 0xAA 1).bind
        (fun r2 =>
          (cpu_read r2.2 0 500).map (fun r3 => (r3.1, r3.2.memory 500))))
      = some (Util.apply_wstrb 0 0xAA 1, some 0x11223344)
    ∧ Util.byte_lane (Util.apply_wstrb 0 0xAA 1) 1 = 0 :=
  ⟨(msi_write_miss_discards_fetch 500 0x11223344 0xAA 1 (by decide)).1,
   (msi_write_miss_discards_fetch 500 0x11223344 0xAA 1 (by decide)).2 1
     (by decide) (by decide)⟩

end Msi

namespace Msi

def addr_inv (s : SysState) (a : Nat) : Prop :=
  ((s.entries a).state = .INVALID →
      (s.entries a).sharers = 0 ∧ (s.c0 a).state = .INVALID ∧ (s.c1 a).state = .INVALID)
  ∧ ((s.entries a).state = .SHARED →
      ((s.entries a).sharers = 1 ∧ (s.c0 a).state = .SHARED ∧ (s.c1 a).state = .INVALID)
      ∨ ((s.entries a).sharers = 2 ∧ (s.c0 a).state = .INVALID ∧ (s.c1 a).state = .SHARED)
      ∨ ((s.entries a).sharers = 3 ∧ (s.c0 a).state = .SHARED ∧ (s.c1 a).state = .SHARED))
  ∧ ((s.entries a).state = .MODIFIED →
      ((s.entries a).sharers = 1 ∧ (s.c0 a).state = .MODIFIED ∧ (s.c1 a).state = .INVALID)
      ∨ ((s.entries a).sharers = 2 ∧ (s.c0 a).state = .INVALID ∧ (s.c1 a).state = .MODIFIED))

def sys_inv (s : SysState) : Prop := ∀ a, addr_inv s a

theorem inv_cpu_write (s : SysState) (core addr wdata wstrb : Nat)
    (hcore : core = 0 ∨ core = 1) (hinv : sys_inv s) :
    ∀ r, cpu_write s core addr wdata wstrb = some r → sys_inv r.2 := by
  intro r h
  obtain ⟨hI, hS, hM⟩ := hinv addr
  have hp20 : unpack_cmd (pack_cmd .BUS_RDX 0 0) = (2, 0, 0) := by decide
  have hp21 : unpack_cmd (pack_cmd .BUS_RDX 1 0) = (2, 1, 0) := by decide
  have hp30 : unpack_cmd (pack_cmd .BUS_UPGR 0 0) = (3, 0, 0) := by decide
  have hp31 : unpack_cmd (pack_cmd .BUS_UPGR 1 0) = (3, 1, 0) := by decide
  have hs180 : unpack_cmd (pack_cmd .SNOOP_BUS_RDX 0 0) = (18, 0, 0) := by decide
  have hs181 : unpack_cmd (pack_cmd .SNOOP_BUS_RDX 1 0) = (18, 1, 0) := by decide
  have hs190 : unpack_cmd (pack_cmd .SNOOP_BUS_UPGR 0 0) = (19, 0, 0) := by decide
  have hs191 : unpack_cmd (pack_cmd .SNOOP_BUS_UPGR 1 0) = (19, 1, 0) := by decide
  rcases hcore with rfl | rfl
  · rcases hest : (s.entries addr).state with _ | _ | _
    · obtain ⟨hsh, hc0, hc1⟩ := hI hest
      simp [cpu_write, get_lines, set_lines, send_dir_cmd, dir_handle_coherence,
        dir_bus_rdx, on_processor_event, hest, hc0, hsh, hp20, cmd_val,
        Util.fupd] at h
      subst h
      intro b
      by_cases hb : b = addr
      · subst hb
        simp [addr_inv, Util.fupd, hc1]
      · obtain ⟨hbI, hbS, hbM⟩ := hinv b
        simp only [addr_inv, Util.fupd, if_neg hb]
        exact ⟨hbI, hbS, hbM⟩
    · rcases hS hest with ⟨hsh, hc0, hc1⟩ | ⟨hsh, hc0, hc1⟩ | ⟨hsh, hc0, hc1⟩
      · -- sharers 1, c0 SHARED: write hit, BUS_UPGR, no other sharer
        simp [cpu_write, get_lines, set_lines, send_dir_cmd, dir_handle_coherence,
          dir_bus_upgr, snoop_other_sharers, snoop_sharer_step, on_processor_event,
          hest, hc0, hsh, hp30, cmd_val, Util.fupd] at h
        subst h
        intro b
        by_cases hb : b = addr
        · subst hb
          simp [addr_inv, Util.fupd, hc1]
        · obtain ⟨hbI, hbS, hbM⟩ := hinv b
          simp only [addr_inv, Util.fupd, if_neg hb]
          exact ⟨hbI, hbS, hbM⟩
      · -- sharers 2, c0 INVALID, c1 SHARED: write miss, BUS_RDX snoops cache 1
        simp [cpu_write, get_lines, set_lines, send_dir_cmd, dir_handle_coherence,
          dir_bus_rdx, snoop_other_sharers, snoop_sharer_step, send_snoop,
          handle_snoop, on_snoop_event, on_processor_event,
          hest, hc0, hc1, hsh, hp20, hs180, cmd_val, Util.fupd] at h
        subst h
        intro b
        by_cases hb : b = addr
        · subst hb
          simp [addr_inv, Util.fupd]
        · obtain ⟨hbI, hbS, hbM⟩ := hinv b
          simp only [addr_inv, Util.fupd, if_neg hb]
          exact ⟨hbI, hbS, hbM⟩
      · -- sharers 3, both SHARED: write hit, BUS_UPGR snoops cache 1
        simp [cpu_write, get_lines, set_lines, send_dir_cmd, dir_handle_coherence,
          dir_bus_upgr, snoop_other_sharers, snoop_sharer_step, send_snoop,
          handle_snoop, on_snoop_event, on_processor_event,
          hest, hc0, hc1, hsh, hp30, hs190, cmd_val, Util.fupd] at h
        subst h
        intro b
        by_cases hb : b = addr
        · subst hb
          simp [addr_inv, Util.fupd]
        · obtain ⟨hbI, hbS, hbM⟩ := hinv b
          simp only [addr_inv, Util.fupd, if_neg hb]
          exact ⟨hbI, hbS, hbM⟩
    · rcases hM hest with ⟨hsh, hc0, hc1⟩ | ⟨hsh, hc0, hc1⟩
      · -- sharers 1, c0 MODIFIED: silent write hit
        simp [cpu_write, get_lines, set_lines, on_processor_event,
          hc0, Util.fupd] at h
        subst h
        intro b
        by_cases hb : b = addr
        · subst hb
          simp [addr_inv, Util.fupd, hest, hsh, hc1]
        · obtain ⟨hbI, hbS, hbM⟩ := hinv b
          simp only [addr_inv, Util.fupd, if_neg hb]
          exact ⟨hbI, hbS, hbM⟩
      · -- sharers 2, c0 INVALID, c1 MODIFIED: BUS_RDX transfers ownership
        simp [cpu_write, get_lines, set_lines, send_dir_cmd, dir_handle_coherence,
          dir_bus_rdx, DirectoryEntry.owner, bit_length, bit_length_aux,
          send_snoop, handle_snoop, on_snoop_event, on_processor_event,
          hest, hc0, hc1, hsh, hp20, hs180, cmd_val, Util.fupd] at h
        subst h
        intro b
        by_cases hb : b = addr
        · subst hb
          simp [addr_inv, Util.fupd]
        · obtain ⟨hbI, hbS, hbM⟩ := hinv b
          simp only [addr_inv, Util.fupd, if_neg hb]
          exact ⟨hbI, hbS, hbM⟩
  · rcases hest : (s.entries addr).state with _ | _ | _
    · obtain ⟨hsh, hc0, hc1⟩ := hI hest
      simp [cpu_write, get_lines, set_lines, send_dir_cmd, dir_handle_coherence,
        dir_bus_rdx, on_processor_event, hest, hc1, hsh, hp21, cmd_val,
        Util.fupd] at h
      subst h
      intro b
      by_cases hb : b = addr
      · subst hb
        simp [addr_inv, Util.fupd, hc0]
      · obtain ⟨hbI, hbS, hbM⟩ := hinv b
        simp only [addr_inv, Util.fupd, if_neg hb]
        exact ⟨hbI, hbS, hbM⟩
    · rcases hS hest with ⟨hsh, hc0, hc1⟩ | ⟨hsh, hc0, hc1⟩ | ⟨hsh, hc0, hc1⟩
      · -- sharers 1, c0 SHARED, c1 INVALID: cache 1 write miss, snoops cache 0
        simp [cpu_write, get_lines, set_lines, send_dir_cmd, dir_handle_coherence,
          dir_bus_rdx, snoop_other_sharers, snoop_sharer_step, send_snoop,
          handle_snoop, on_snoop_event, on_processor_event,
          hest, hc0, hc1, hsh, hp21, hs181, cmd_val, Util.fupd] at h
        subst h
        intro b
        by_cases hb : b = addr
        · subst hb
          simp [addr_inv, Util.fupd]
        · obtain ⟨hbI, hbS, hbM⟩ := hinv b
          simp only [addr_inv, Util.fupd, if_neg hb]
          exact ⟨hbI, hbS, hbM⟩
      · -- sharers 2, c1 SHARED: write hit, BUS_UPGR, no other sharer
        simp [cpu_write, get_lines, set_lines, send_dir_cmd, dir_handle_coherence,
          dir_bus_upgr, snoop_other_sharers, snoop_sharer_step, on_processor_event,
          hest, hc1, hsh, hp31, cmd_val, Util.fupd] at h
        subst h
        intro b
        by_cases hb : b = addr
        · subst hb
          simp [addr_inv, Util.fupd, hc0]
        · obtain ⟨hbI, hbS, hbM⟩ := hinv b
          simp only [addr_inv, Util.fupd, if_neg hb]
          exact ⟨hbI, hbS, hbM⟩
      · -- sharers 3, both SHARED: cache 1 BUS_UPGR snoops cache 0
        simp [cpu_write, get_lines, set_lines, send_dir_cmd, dir_handle_coherence,
          dir_bus_upgr, snoop_other_sharers, snoop_sharer_step, send_snoop,
          handle_snoop, on_snoop_event, on_processor_event,
          hest, hc0, hc1, hsh, hp31, hs191, cmd_val, Util.fupd] at h
        subst h
        intro b
        by_cases hb : b = addr
        · subst hb
          simp [addr_inv, Util.fupd]
        · obtain ⟨hbI, hbS, hbM⟩ := hinv b
          simp only [addr_inv, Util.fupd, if_neg hb]
          exact ⟨hbI, hbS, hbM⟩
    · rcases hM hest with ⟨hsh, hc0, hc1⟩ | ⟨hsh, hc0, hc1⟩
      · -- sharers 1, c0 MODIFIED, c1 INVALID: BUS_RDX transfers ownership
        simp [cpu_write, get_lines, set_lines, send_dir_cmd, dir_handle_coherence,
          dir_bus_rdx, DirectoryEntry.owner, bit_length, bit_length_aux,
          send_snoop, handle_snoop, on_snoop_event, on_processor_event,
          hest, hc0, hc1, hsh, hp21, hs181, cmd_val, Util.fupd] at h
        subst h
        intro b
        by_cases hb : b = addr
        · subst hb
          simp [addr_inv, Util.fupd]
        · obtain ⟨hbI, hbS, hbM⟩ := hinv b
          simp only [addr_inv, Util.fupd, if_neg hb]
          exact ⟨hbI, hbS, hbM⟩
      · -- sharers 2, c1 MODIFIED: silent write hit
        simp [cpu_write, get_lines, set_lines, on_processor_event,
          hc1, Util.fupd] at h
        subst h
        intro b
        by_cases hb : b = addr
        · subst hb
          simp [addr_inv, Util.fupd, hest, hsh, hc0]
        · obtain ⟨hbI, hbS, hbM⟩ := hinv b
          simp only [addr_inv, Util.fupd, if_neg hb]
          exact ⟨hbI, hbS, hbM⟩

end Msi

namespace Msi

theorem testBit_false_of_lt_256 (v j : Nat) (hv : v < 256) (hj : 8 ≤ j) :
    v.testBit j = false :=
  Nat.testBit_eq_false_of_lt (Nat.lt_of_lt_of_le hv (by
    have h : (256 : Nat) = 2 ^ 8 := by norm_num
    rw [h]
    exact Nat.pow_le_pow_right (by norm_num) hj))

theorem pack_and_255 (v core payload : Nat) (hv : v < 256) :
    ((payload <<< 16) ||| ((core &&& 0xFF) <<< 8) ||| (v &&& 0xFF)) &&& 0xFF = v := by
  apply Nat.eq_of_testBit_eq
  intro j
  have h255 : (0xFF : Nat) = 2 ^ 8 - 1 := by norm_num
  simp only [Nat.testBit_land, Nat.testBit_lor, Nat.testBit_shiftLeft,
    h255, Nat.testBit_two_pow_sub_one]
  by_cases hj : j < 8
  · have h16 : ¬(j ≥ 16) := by omega
    have h8 : ¬(j ≥ 8) := by omega
    simp [hj, h16, h8]
  · have hvj : v.testBit j = false := testBit_false_of_lt_256 v j hv (by omega)
    simp [hj, hvj]

theorem pack_shift8 (v core payload : Nat) (hv : v < 256) (hcore : core < 256) :
    (((payload <<< 16) ||| ((core &&& 0xFF) <<< 8) ||| (v &&& 0xFF)) >>> 8) &&& 0xFF
      = core := by
  apply Nat.eq_of_testBit_eq
  intro j
  have h255 : (0xFF : Nat) = 2 ^ 8 - 1 := by norm_num
  simp only [Nat.testBit_land, Nat.testBit_shiftRight, Nat.testBit_lor,
    Nat.testBit_shiftLeft, h255, Nat.testBit_two_pow_sub_one]
  by_cases hj : j < 8
  · have h16 : ¬(8 + j ≥ 16) := by omega
    have h8 : 8 + j ≥ 8 := by omega
    have hvj : v.testBit (8 + j) = false := testBit_false_of_lt_256 v (8 + j) hv (by omega)
    have hcj : (core &&& 255).testBit (8 + j - 8) = core.testBit j := by
      rw [Nat.testBit_land]
      have he : 8 + j - 8 = j := by omega
      rw [he]
      have h2 : (255 : Nat).testBit j = true := by
        rw [h255, Nat.testBit_two_pow_sub_one]
        simp [hj]
      simp [h2]
    simp [hj, h16, h8, hvj, hcj]
  · have hcj : core.testBit j = false := testBit_false_of_lt_256 core j hcore (by omega)
    simp [hj, hcj]

theorem pack_shift16 (v core payload : Nat) (hv : v < 256) (hcore : core < 256) :
    ((payload <<< 16) ||| ((core &&& 0xFF) <<< 8) ||| (v &&& 0xFF)) >>> 16
      = payload := by
  apply Nat.eq_of_testBit_eq
  intro j
  have h255 : (0xFF : Nat) = 2 ^ 8 - 1 := by norm_num
  simp only [Nat.testBit_shiftRight, Nat.testBit_lor, Nat.testBit_shiftLeft,
    Nat.testBit_land, h255, Nat.testBit_two_pow_sub_one]
  have h16 : 16 + j ≥ 16 := by omega
  have h8 : 16 + j ≥ 8 := by omega
  have he : 16 + j - 16 = j := by omega
  have hvj : v.testBit (16 + j) = false := testBit_false_of_lt_256 v (16 + j) hv (by omega)
  have hc8 : ¬(16 + j - 8 < 8) := by omega
  have hcj : core.testBit (16 + j - 8) = false :=
    testBit_false_of_lt_256 core (16 + j - 8) hcore (by omega)
  simp [h16, h8, he, hvj, hc8, hcj]

/-- The packed coherence-command word round-trips through
`unpack_cmd` for in-range core ids. -/
theorem unpack_pack (c : CoherenceCmd) (core payload : Nat) (hcore : core < 256) :
    unpack_cmd (pack_cmd c core payload) = (cmd_val c, core, payload) := by
  have hv : cmd_val c < 256 := by cases c <;> decide
  simp only [unpack_cmd, pack_cmd]
  rw [pack_and_255 _ _ _ hv, pack_shift8 _ _ _ hv hcore, pack_shift16 _ _ _ hv hcore]

theorem inv_cpu_read (s : SysState) (core addr : Nat)
    (hcore : core = 0 ∨ core = 1) (hinv : sys_inv s) :
    ∀ r, cpu_read s core addr = some r → sys_inv r.2 := by
  intro r h
  obtain ⟨hI, hS, hM⟩ := hinv addr
  have hp10 : unpack_cmd (pack_cmd .BUS_RD 0 0) = (1, 0, 0) := by decide
  have hp11 : unpack_cmd (pack_cmd .BUS_RD 1 0) = (1, 1, 0) := by decide
  have hs170 : unpack_cmd (pack_cmd .SNOOP_BUS_RD 0 0) = (17, 0, 0) := by decide
  have hs171 : unpack_cmd (pack_cmd .SNOOP_BUS_RD 1 0) = (17, 1, 0) := by decide
  rcases hcore with rfl | rfl
  · rcases hest : (s.entries addr).state with _ | _ | _
    · obtain ⟨hsh, hc0, hc1⟩ := hI hest
      simp [cpu_read, get_lines, set_lines, send_dir_cmd, dir_handle_coherence,
        dir_bus_rd, on_processor_event, hest, hc0, hsh, hp10, cmd_val,
        Util.fupd] at h
      subst h
      intro b
      by_cases hb : b = addr
      · subst hb
        simp [addr_inv, Util.fupd, hc1]
      · obtain ⟨hbI, hbS, hbM⟩ := hinv b
        simp only [addr_inv, Util.fupd, if_neg hb]
        exact ⟨hbI, hbS, hbM⟩
    · rcases hS hest with ⟨hsh, hc0, hc1⟩ | ⟨hsh, hc0, hc1⟩ | ⟨hsh, hc0, hc1⟩
      · -- read hit in SHARED
        simp [cpu_read, get_lines, set_lines, on_processor_event, hc0,
          Util.fupd] at h
        subst h
        intro b
        by_cases hb : b = addr
        · subst hb
          simp [addr_inv, Util.fupd, hest, hsh, hc1]
        · obtain ⟨hbI, hbS, hbM⟩ := hinv b
          simp only [addr_inv, Util.fupd, if_neg hb]
          exact ⟨hbI, hbS, hbM⟩
      · -- read miss while cache 1 shares
        simp [cpu_read, get_lines, set_lines, send_dir_cmd, dir_handle_coherence,
          dir_bus_rd, on_processor_event, hest, hc0, hsh, hp10, cmd_val,
          Util.fupd] at h
        subst h
        intro b
        by_cases hb : b = addr
        · subst hb
          simp [addr_inv, Util.fupd, hc1]
        · obtain ⟨hbI, hbS, hbM⟩ := hinv b
          simp only [addr_inv, Util.fupd, if_neg hb]
          exact ⟨hbI, hbS, hbM⟩
      · -- read hit, both SHARED
        simp [cpu_read, get_lines, set_lines, on_processor_event, hc0,
          Util.fupd] at h
        subst h
        intro b
        by_cases hb : b = addr
        · subst hb
          simp [addr_inv, Util.fupd, hest, hsh, hc1]
        · obtain ⟨hbI, hbS, hbM⟩ := hinv b
          simp only [addr_inv, Util.fupd, if_neg hb]
          exact ⟨hbI, hbS, hbM⟩
    · rcases hM hest with ⟨hsh, hc0, hc1⟩ | ⟨hsh, hc0, hc1⟩
      · -- read hit in MODIFIED
        simp [cpu_read, get_lines, set_lines, on_processor_event, hc0,
          Util.fupd] at h
        subst h
        intro b
        by_cases hb : b = addr
        · subst hb
          simp [addr_inv, Util.fupd, hest, hsh, hc1]
        · obtain ⟨hbI, hbS, hbM⟩ := hinv b
          simp only [addr_inv, Util.fupd, if_neg hb]
          exact ⟨hbI, hbS, hbM⟩
      · -- read miss while cache 1 owns MODIFIED: flush downgrade
        simp [cpu_read, get_lines, set_lines, send_dir_cmd, dir_handle_coherence,
          dir_bus_rd, DirectoryEntry.owner, bit_length, bit_length_aux,
          send_snoop, handle_snoop, on_snoop_event, on_processor_event,
          hest, hc0, hc1, hsh, hp10, hs170, cmd_val, Util.fupd] at h
        subst h
        intro b
        by_cases hb : b = addr
        · subst hb
          simp [addr_inv, Util.fupd]
        · obtain ⟨hbI, hbS, hbM⟩ := hinv b
          simp only [addr_inv, Util.fupd, if_neg hb]
          exact ⟨hbI, hbS, hbM⟩
  · rcases hest : (s.entries addr).state with _ | _ | _
    · obtain ⟨hsh, hc0, hc1⟩ := hI hest
      simp [cpu_read, get_lines, set_lines, send_dir_cmd, dir_handle_coherence,
        dir_bus_rd, on_processor_event, hest, hc1, hsh, hp11, cmd_val,
        Util.fupd] at h
      subst h
      intro b
      by_cases hb : b = addr
      · subst hb
        simp [addr_inv, Util.fupd, hc0]
      · obtain ⟨hbI, hbS, hbM⟩ := hinv b
        simp only [addr_inv, Util.fupd, if_neg hb]
        exact ⟨hbI, hbS, hbM⟩
    · rcases hS hest with ⟨hsh, hc0, hc1⟩ | ⟨hsh, hc0, hc1⟩ | ⟨hsh, hc0, hc1⟩
      · -- cache 1 read miss while cache 0 shares
        simp [cpu_read, get_lines, set_lines, send_dir_cmd, dir_handle_coherence,
          dir_bus_rd, on_processor_event, hest, hc1, hsh, hp11, cmd_val,
          Util.fupd] at h
        subst h
        intro b
        by_cases hb : b = addr
        · subst hb
          simp [addr_inv, Util.fupd, hc0]
        · obtain ⟨hbI, hbS, hbM⟩ := hinv b
          simp only [addr_inv, Util.fupd, if_neg hb]
          exact ⟨hbI, hbS, hbM⟩
      · -- read hit in SHARED
        simp [cpu_read, get_lines, set_lines, on_processor_event, hc1,
          Util.fupd] at h
        subst h
        intro b
        by_cases hb : b = addr
        · subst hb
          simp [addr_inv, Util.fupd, hest, hsh, hc0]
        · obtain ⟨hbI, hbS, hbM⟩ := hinv b
          simp only [addr_inv, Util.fupd, if_neg hb]
          exact ⟨hbI, hbS, hbM⟩
      · -- read hit, both SHARED
        simp [cpu_read, get_lines, set_lines, on_processor_event, hc1,
          Util.fupd] at h
        subst h
        intro b
        by_cases hb : b = addr
        · subst hb
          simp [addr_inv, Util.fupd, hest, hsh, hc0]
        · obtain ⟨hbI, hbS, hbM⟩ := hinv b
          simp only [addr_inv, Util.fupd, if_neg hb]
          exact ⟨hbI, hbS, hbM⟩
    · rcases hM hest with ⟨hsh, hc0, hc1⟩ | ⟨hsh, hc0, hc1⟩
      · -- cache 1 read miss while cache 0 owns MODIFIED
        simp [cpu_read, get_lines, set_lines, send_dir_cmd, dir_handle_coherence,
          dir_bus_rd, DirectoryEntry.owner, bit_length, bit_length_aux,
          send_snoop, handle_snoop, on_snoop_event, on_processor_event,
          hest, hc0, hc1, hsh, hp11, hs171, cmd_val, Util.fupd] at h
        subst h
        intro b
        by_cases hb : b = addr
        · subst hb
          simp [addr_inv, Util.fupd]
        · obtain ⟨hbI, hbS, hbM⟩ := hinv b
          simp only [addr_inv, Util.fupd, if_neg hb]
          exact ⟨hbI, hbS, hbM⟩
      · -- read hit in MODIFIED
        simp [cpu_read, get_lines, set_lines, on_processor_event, hc1,
          Util.fupd] at h
        subst h
        intro b
        by_cases hb : b = addr
        · subst hb
          simp [addr_inv, Util.fupd, hest, hsh, hc0]
        · obtain ⟨hbI, hbS, hbM⟩ := hinv b
          simp only [addr_inv, Util.fupd, if_neg hb]
          exact ⟨hbI, hbS, hbM⟩

end Msi

namespace Msi

theorem inv_cache_evict (s : SysState) (core addr : Nat)
    (hcore : core = 0 ∨ core = 1) (hinv : sys_inv s) :
    ∀ s2, cache_evict s core addr = some s2 → sys_inv s2 := by
  intro s2 h
  obtain ⟨hI, hS, hM⟩ := hinv addr
  have hp40 : unpack_cmd (pack_cmd .EVICT_CLEAN 0 0) = (4, 0, 0) := by decide
  have hp41 : unpack_cmd (pack_cmd .EVICT_CLEAN 1 0) = (4, 1, 0) := by decide
  have hp50 := unpack_pack .EVICT_DIRTY 0 ((s.c0 addr).data) (by norm_num)
  have hp51 := unpack_pack .EVICT_DIRTY 1 ((s.c1 addr).data) (by norm_num)
  have hand11 : (1 : Nat) &&& 1 = 1 := by decide
  have hand31 : (3 : Nat) &&& 1 = 1 := by decide
  have hand22 : (2 : Nat) &&& 2 = 2 := by decide
  have hand32 : (3 : Nat) &&& 2 = 2 := by decide
  have hxor11 : (1 : Nat) ^^^ 1 = 0 := by decide
  have hxor31 : (3 : Nat) ^^^ 1 = 2 := by decide
  have hxor22 : (2 : Nat) ^^^ 2 = 0 := by decide
  have hxor32 : (3 : Nat) ^^^ 2 = 1 := by decide
  rcases hcore with rfl | rfl
  · rcases hest : (s.entries addr).state with _ | _ | _
    · obtain ⟨hsh, hc0, hc1⟩ := hI hest
      simp [cache_evict, get_lines, set_lines, hc0, Util.fupd] at h
      subst h
      intro b
      by_cases hb : b = addr
      · subst hb
        simp [addr_inv, Util.fupd, hest, hsh, hc1]
      · obtain ⟨hbI, hbS, hbM⟩ := hinv b
        simp only [addr_inv, Util.fupd, if_neg hb]
        exact ⟨hbI, hbS, hbM⟩
    · rcases hS hest with ⟨hsh, hc0, hc1⟩ | ⟨hsh, hc0, hc1⟩ | ⟨hsh, hc0, hc1⟩
      · -- clean eviction of the only sharer
        simp [cache_evict, get_lines, set_lines, send_dir_cmd, dir_handle_coherence,
          dir_evict_clean, hest, hc0, hsh, hp40, cmd_val, Util.andNot, hand11, hand31, hand22, hand32, hxor11, hxor31, hxor22, hxor32,
          Util.fupd] at h
        subst h
        intro b
        by_cases hb : b = addr
        · subst hb
          simp [addr_inv, Util.fupd, hc1]
        · obtain ⟨hbI, hbS, hbM⟩ := hinv b
          simp only [addr_inv, Util.fupd, if_neg hb]
          exact ⟨hbI, hbS, hbM⟩
      · -- cache 0 not a sharer: line already INVALID, no directory traffic
        simp [cache_evict, get_lines, set_lines, hc0, Util.fupd] at h
        subst h
        intro b
        by_cases hb : b = addr
        · subst hb
          simp [addr_inv, Util.fupd, hest, hsh, hc1]
        · obtain ⟨hbI, hbS, hbM⟩ := hinv b
          simp only [addr_inv, Util.fupd, if_neg hb]
          exact ⟨hbI, hbS, hbM⟩
      · -- clean eviction, cache 1 keeps sharing
        simp [cache_evict, get_lines, set_lines, send_dir_cmd, dir_handle_coherence,
          dir_evict_clean, hest, hc0, hsh, hp40, cmd_val, Util.andNot, hand11, hand31, hand22, hand32, hxor11, hxor31, hxor22, hxor32,
          Util.fupd] at h
        subst h
        intro b
        by_cases hb : b = addr
        · subst hb
          simp [addr_inv, Util.fupd, hc1]
        · obtain ⟨hbI, hbS, hbM⟩ := hinv b
          simp only [addr_inv, Util.fupd, if_neg hb]
          exact ⟨hbI, hbS, hbM⟩
    · rcases hM hest with ⟨hsh, hc0, hc1⟩ | ⟨hsh, hc0, hc1⟩
      · -- dirty eviction of the owner
        simp [cache_evict, get_lines, set_lines, send_dir_cmd, dir_handle_coherence,
          dir_evict_dirty, dir_evict_clean, hest, hc0, hsh, hp50, cmd_val,
          Util.andNot, hand11, hand31, hand22, hand32, hxor11, hxor31, hxor22, hxor32, Util.fupd] at h
        subst h
        intro b
        by_cases hb : b = addr
        · subst hb
          simp [addr_inv, Util.fupd, hc1]
        · obtain ⟨hbI, hbS, hbM⟩ := hinv b
          simp only [addr_inv, Util.fupd, if_neg hb]
          exact ⟨hbI, hbS, hbM⟩
      · -- cache 0 INVALID while cache 1 owns: no directory traffic
        simp [cache_evict, get_lines, set_lines, hc0, Util.fupd] at h
        subst h
        intro b
        by_cases hb : b = addr
        · subst hb
          simp [addr_inv, Util.fupd, hest, hsh, hc1]
        · obtain ⟨hbI, hbS, hbM⟩ := hinv b
          simp only [addr_inv, Util.fupd, if_neg hb]
          exact ⟨hbI, hbS, hbM⟩
  · rcases hest : (s.entries addr).state with _ | _ | _
    · obtain ⟨hsh, hc0, hc1⟩ := hI hest
      simp [cache_evict, get_lines, set_lines, hc1, Util.fupd] at h
      subst h
      intro b
      by_cases hb : b = addr
      · subst hb
        simp [addr_inv, Util.fupd, hest, hsh, hc0]
      · obtain ⟨hbI, hbS, hbM⟩ := hinv b
        simp only [addr_inv, Util.fupd, if_neg hb]
        exact ⟨hbI, hbS, hbM⟩
    · rcases hS hest with ⟨hsh, hc0, hc1⟩ | ⟨hsh, hc0, hc1⟩ | ⟨hsh, hc0, hc1⟩
      · -- cache 1 not a sharer: line already INVALID
        simp [cache_evict, get_lines, set_lines, hc1, Util.fupd] at h
        subst h
        intro b
        by_cases hb : b = addr
        · subst hb
          simp [addr_inv, Util.fupd, hest, hsh, hc0]
        · obtain ⟨hbI, hbS, hbM⟩ := hinv b
          simp only [addr_inv, Util.fupd, if_neg hb]
          exact ⟨hbI, hbS, hbM⟩
      · -- clean eviction of the only sharer (cache 1)
        simp [cache_evict, get_lines, set_lines, send_dir_cmd, dir_handle_coherence,
          dir_evict_clean, hest, hc1, hsh, hp41, cmd_val, Util.andNot, hand11, hand31, hand22, hand32, hxor11, hxor31, hxor22, hxor32,
          Util.fupd] at h
        subst h
        intro b
        by_cases hb : b = addr
        · subst hb
          simp [addr_inv, Util.fupd, hc0]
        · obtain ⟨hbI, hbS, hbM⟩ := hinv b
          simp only [addr_inv, Util.fupd, if_neg hb]
          exact ⟨hbI, hbS, hbM⟩
      · -- clean eviction, cache 0 keeps sharing
        simp [cache_evict, get_lines, set_lines, send_dir_cmd, dir_handle_coherence,
          dir_evict_clean, hest, hc1, hsh, hp41, cmd_val, Util.andNot, hand11, hand31, hand22, hand32, hxor11, hxor31, hxor22, hxor32,
          Util.fupd] at h
        subst h
        intro b
        by_cases hb : b = addr
        · subst hb
          simp [addr_inv, Util.fupd, hc0]
        · obtain ⟨hbI, hbS, hbM⟩ := hinv b
          simp only [addr_inv, Util.fupd, if_neg hb]
          exact ⟨hbI, hbS, hbM⟩
    · rcases hM hest with ⟨hsh, hc0, hc1⟩ | ⟨hsh, hc0, hc1⟩
      · -- cache 1 INVALID while cache 0 owns: no directory traffic
        simp [cache_evict, get_lines, set_lines, hc1, Util.fupd] at h
        subst h
        intro b
        by_cases hb : b = addr
        · subst hb
          simp [addr_inv, Util.fupd, hest, hsh, hc0]
        · obtain ⟨hbI, hbS, hbM⟩ := hinv b
          simp only [addr_inv, Util.fupd, if_neg hb]
          exact ⟨hbI, hbS, hbM⟩
      · -- dirty eviction of the owner (cache 1)
        simp [cache_evict, get_lines, set_lines, send_dir_cmd, dir_handle_coherence,
          dir_evict_dirty, dir_evict_clean, hest, hc1, hsh, hp51, cmd_val,
          Util.andNot, hand11, hand31, hand22, hand32, hxor11, hxor31, hxor22, hxor32, Util.fupd] at h
        subst h
        intro b
        by_cases hb : b = addr
        · subst hb
          simp [addr_inv, Util.fupd, hc0]
        · obtain ⟨hbI, hbS, hbM⟩ := hinv b
          simp only [addr_inv, Util.fupd, if_neg hb]
          exact ⟨hbI, hbS, hbM⟩

end Msi

namespace Msi

theorem sys_inv_init : sys_inv init_sys := by
  intro a
  simp [addr_inv, init_sys]

theorem run_op_inv (s : SysState) (op : MsiOp) (hinv : sys_inv s) :
    ∀ s2, run_op s op = some s2 → sys_inv s2 := by
  intro s2 h
  cases op with
  | read cid addr =>
      simp only [run_op] at h
      rcases ho : cpu_read s (if cid = 0 then 0 else 1) addr with _ | r
      · rw [ho] at h
        simp at h
      · rw [ho] at h
        simp only [Option.map_some', Option.some.injEq] at h
        subst h
        exact inv_cpu_read s _ addr (by by_cases hc : cid = 0 <;> simp [hc]) hinv r ho
  | write cid addr wdata wstrb =>
      simp only [run_op] at h
      rcases ho : cpu_write s (if cid = 0 then 0 else 1) addr wdata wstrb with _ | r
      · rw [ho] at h
        simp at h
      · rw [ho] at h
        simp only [Option.map_some', Option.some.injEq] at h
        subst h
        exact inv_cpu_write s _ addr wdata wstrb
          (by by_cases hc : cid = 0 <;> simp [hc]) hinv r ho
  | evict cid addr =>
      simp only [run_op] at h
      exact inv_cache_evict s _ addr (by by_cases hc : cid = 0 <;> simp [hc]) hinv s2 h

theorem run_ops_inv (ops : List MsiOp) :
    ∀ s s2, sys_inv s → run_ops s ops = some s2 → sys_inv s2 := by
  induction ops with
  | nil =>
      intro s s2 hinv h
      simp only [run_ops, Option.some.injEq] at h
      subst h
      exact hinv
  | cons op rest ih =>
      intro s s2 hinv h
      simp only [run_ops] at h
      rcases ho : run_op s op with _ | s1
      · rw [ho] at h
        simp at h
      · rw [ho] at h
        simp only [Option.some_bind] at h
        exact ih s1 s2 (run_op_inv s op hinv s1 ho) h

/-- C6.  MSI directory sharer-mask consistency: in the generation-1 system,
after every sequence of completed cache operations (CPU reads, CPU writes,
evictions, by either cache), every directory entry in MODIFIED state has a
sharer mask with exactly one bit set (its `owner()` is defined), and the
cache identified by that bit holds its line for that address in MODIFIED
state. -/
theorem msi_directory_owner_consistency (ops : List MsiOp) (s : SysState)
    (h : run_ops init_sys ops = some s) :
    ∀ a, (s.entries a).state = .MODIFIED →
      ∃ k, (s.entries a).sharers = 1 <<< k ∧ (s.entries a).owner = some k ∧
        (get_lines s k a).state = .MODIFIED := by
  have hinv : sys_inv s := run_ops_inv ops init_sys s sys_inv_init h
  intro a hMod
  have hand10 : (1 : Nat) &&& 0 = 0 := by decide
  have hand21 : (2 : Nat) &&& 1 = 0 := by decide
  rcases (hinv a).2.2 hMod with ⟨hsh, hc0, _⟩ | ⟨hsh, _, hc1⟩
  · refine ⟨0, by rw [hsh]; decide, ?_, by simpa [get_lines] using hc0⟩
    simp [DirectoryEntry.owner, hMod, hsh, bit_length, bit_length_aux, hand10]
  · refine ⟨1, by rw [hsh]; decide, ?_, by simpa [get_lines] using hc1⟩
    simp [DirectoryEntry.owner, hMod, hsh, bit_length, bit_length_aux, hand21]

/-- The system after one full-strobe write by cache 0 to address 7. -/
def msi_demo_state : SysState :=
  (run_ops init_sys [.write 0 7 5 0xF]).getD init_sys

/-- Witness for C6 after the single concrete operation of `msi_demo_state`. -/
theorem msi_directory_owner_consistency_witness :
    ∃ k, ((msi_demo_state).entries 7).sharers = 1 <<< k ∧
      ((msi_demo_state).entries 7).owner = some k ∧
      (get_lines msi_demo_state k 7).state = .MODIFIED :=
  msi_directory_owner_consistency [.write 0 7 5 0xF] msi_demo_state (by rfl) 7 (by rfl)

end Msi

/-!
## `src/emulation/serial_interface/bidir_serializer.py` — bidirectional serializer

Shallow embedding of the `bidir_serializer` class and of the cross-wiring used
by `bidir_serializer_test.py` (`cycle`): two instances share the serial bus,
each side's `req_o` is fed as the other's `req_i` on the next cycle.  Python
bounded deques (`maxlen=m`) are lists with explicit drop-on-overflow; `pop` on
an empty deque (IndexError) and the `assert` statements make `cycle_clock`
return `Option`.
-/

namespace Ser

inductive SerState
  | idle
  | request
  | send
  | receive
deriving DecidableEq

/-- `deque.append` (right) with `maxlen = m`: a full deque drops its leftmost
element; a `maxlen=0` deque stays empty. -/
def dq_append (m : Nat) (d : List Nat) (x : Nat) : List Nat :=
  if m = 0 then [] else if m ≤ d.length then d.tail ++ [x] else d ++ [x]

/-- `deque.appendleft` with `maxlen = m`: a full deque drops its rightmost
element. -/
def dq_appendleft (m : Nat) (d : List Nat) (x : Nat) : List Nat :=
  if m = 0 then [] else if m ≤ d.length then x :: d.dropLast else x :: d

/-- `deque.extendleft` with `maxlen = m` (elements of `xs` appended left one by
one, so they end up reversed at the front). -/
def dq_extendleft (m : Nat) (d xs : List Nat) : List Nat :=
  xs.foldl (dq_appendleft m) d

/-- `deque.pop` (right); `none` is Python's IndexError on an empty deque. -/
def dq_pop : List Nat → Option (Nat × List Nat)
  | [] => none
  | [x] => some (x, [])
  | x :: y :: rest => (dq_pop (y :: rest)).map (fun p => (p.1, x :: p.2))

/-- `n` successive `pop`s, collecting the popped values in pop order. -/
def dq_pops : Nat → List Nat → Option (List Nat × List Nat)
  | 0, d => some ([], d)
  | n + 1, d => (dq_pop d).bind fun p => (dq_pops n p.2).map fun q => (p.1 :: q.1, q.2)

structure bidir_serializer where
  serial_io : List Nat
  req_o : Bool
  req_i : Bool
  rready_i : Bool
  rvalid_o : Bool
  rdata_o : List Nat
  tvalid_i : Bool
  tready_o : Bool
  tdata_i : List Nat
  num_pins : Nat
  tdata_size : Nat
  rdata_size : Nat
  tdata_r : List Nat
  rdata_r : List Nat
  state : SerState
  priority : Bool
  driving : Bool

/-- `bidir_serializer.__init__`. -/
def init (num_pins : Nat) (init_priority : Bool) (tdata_size rdata_size : Nat) :
    bidir_serializer :=
  { serial_io := List.replicate num_pins 0, req_o := false, req_i := false,
    rready_i := false, rvalid_o := false, rdata_o := [], tvalid_i := false,
    tready_o := true, tdata_i := [], num_pins := num_pins,
    tdata_size := tdata_size, rdata_size := rdata_size, tdata_r := [],
    rdata_r := [], state := SerState.idle, priority := init_priority,
    driving := false }

/-- The zero padding `_send_serial_packet` appends on the right before popping
(`len(tdata_r) % num_pins` zeros, through the bounded deque). -/
def pad_tdata (s : bidir_serializer) : List Nat :=
  (List.range (s.tdata_r.length % s.num_pins)).foldl
    (fun d _ => dq_append s.tdata_size d 0) s.tdata_r

/-- `bidir_serializer._send_serial_packet`: pad, pop `num_pins` bits onto the
serial pins.  `none` covers `num_pins = 0` (ZeroDivisionError), popping an
exhausted deque (IndexError) and the packet-length assert. -/
def send_serial_packet (s : bidir_serializer) : Option bidir_serializer :=
  if s.num_pins = 0 then none else
  (dq_pops s.num_pins (pad_tdata s)).bind fun pr =>
    if s.serial_io.length = pr.1.length then
      some { s with tdata_r := pr.2, serial_io := pr.1 }
    else none

/-- `bidir_serializer._receive_serial_packet`: `rdata_o.extendleft(serial_io)`
plus the overflow assert (vacuous for a bounded deque). -/
def receive_serial_packet (s : bidir_serializer) : Option bidir_serializer :=
  if (dq_extendleft s.rdata_size s.rdata_o s.serial_io).length ≤ s.rdata_size then
    some { s with rdata_o := dq_extendleft s.rdata_size s.rdata_o s.serial_io }
  else none

/-- `bidir_serializer.cycle_clock`.  The two leading asserts become the outer
guard; the three leading register updates (input sampling, the conditional
`rvalid_o` clear on `rready_i`, the conditional `tdata_r` refresh outside
request/send) are folded into one record update; the four-state machine
(idle / request / send / receive) is translated branch for branch. -/
def cycle_clock (s : bidir_serializer) (req_i : Bool) (serial_i : List Nat)
    (rready_i tvalid_i : Bool) (tdata_i : List Nat) : Option bidir_serializer :=
  if tdata_i.length ≤ s.tdata_size ∧ serial_i.length = s.num_pins then
    let s1 : bidir_serializer := { s with req_i := req_i, serial_io := serial_i, rready_i := rready_i, tvalid_i := tvalid_i, tdata_i := tdata_i, rvalid_o := if rready_i then false else s.rvalid_o, tdata_r := if s.state ≠ SerState.request ∧ s.state ≠ SerState.send then tdata_i else s.tdata_r }
    if s1.state = SerState.idle ∨ s1.state = SerState.request then
      let s4 : bidir_serializer := { s1 with driving := false }
      if s4.req_o && (!req_i || s4.priority) then
        send_serial_packet { s4 with priority := false, driving := true, tready_o := false, state := SerState.send }
      else if req_i && (!s4.req_o || !s4.priority) then
        some { s4 with rdata_r := [], priority := true, tready_o := false, state := SerState.receive, req_o := tvalid_i }
      else if s4.state = SerState.idle then
        let s5 : bidir_serializer := { s4 with req_o := tvalid_i }
        some (if s5.req_o then { s5 with state := SerState.request } else s5)
      else
        some s4
    else if s1.state = SerState.send then
      if s1.tdata_r ≠ [] then
        send_serial_packet s1
      else
        some { s1 with state := SerState.idle, driving := false, tready_o := true, req_o := false }
    else
      if req_i then
        receive_serial_packet s1
      else
        some { s1 with state := if s1.req_o then SerState.request else SerState.idle, rvalid_o := true, tready_o := true }
  else none

/-- The harness state of `bidir_serializer_test.cycle`: the two instances plus
the wires carried between cycles (`input0.req_i`, `input1.req_i`, the shared
`serial_io`). -/
structure SerPair where
  d0 : bidir_serializer
  d1 : bidir_serializer
  req_i0 : Bool
  req_i1 : Bool
  serial : List Nat

/-- `bidir_serializer_test.cycle`: clock both sides with the wires from the
previous cycle, then recompute the wires (`req_i` cross-wired from the peer's
`req_o`, the serial bus from whichever side drives, else all zeros). -/
def cycle (p : SerPair) (rr0 tv0 : Bool) (td0 : List Nat) (rr1 tv1 : Bool)
    (td1 : List Nat) : Option SerPair :=
  (cycle_clock p.d0 p.req_i0 p.serial rr0 tv0 td0).bind fun d0 =>
  (cycle_clock p.d1 p.req_i1 p.serial rr1 tv1 td1).map fun d1 =>
    { d0 := d0, d1 := d1, req_i0 := d1.req_o, req_i1 := d0.req_o,
      serial := if d1.driving then d1.serial_io
        else if d0.driving then d0.serial_io
        else List.replicate p.d0.num_pins 0 }

/-- Reset state of `bidir_serializer_test.run_tests`: complementary initial
priorities, idle, wires low. -/
def init_pair (num_pins : Nat) (b : Bool) (tmsg rmsg : Nat) : SerPair :=
  { d0 := init num_pins b tmsg rmsg, d1 := init num_pins (!b) rmsg tmsg,
    req_i0 := false, req_i1 := false, serial := List.replicate num_pins 0 }

/-- Free per-cycle inputs of one harness cycle. -/
structure CycleInput where
  rr0 : Bool
  tv0 : Bool
  td0 : List Nat
  rr1 : Bool
  tv1 : Bool
  td1 : List Nat

def run_pair (p : SerPair) : List CycleInput → Option SerPair
  | [] => some p
  | i :: rest => (cycle p i.rr0 i.tv0 i.td0 i.rr1 i.tv1 i.td1).bind fun q => run_pair q rest

/-- Control projection of one serializer: state, priority, `req_o`, `driving`. -/
structure Ctrl where
  st : SerState
  pr : Bool
  ro : Bool
  drv : Bool
deriving DecidableEq

def ctrl (s : bidir_serializer) : Ctrl :=
  ⟨s.state, s.priority, s.req_o, s.driving⟩

structure PairCtrl where
  c0 : Ctrl
  c1 : Ctrl
  ri0 : Bool
  ri1 : Bool
deriving DecidableEq

def pairCtrl (p : SerPair) : PairCtrl :=
  ⟨ctrl p.d0, ctrl p.d1, p.req_i0, p.req_i1⟩

/-- Control effect of one successful `cycle_clock` call: `ri` is the sampled
`req_i`, `tv` the sampled `tvalid_i`, `tne` whether `tdata_r` is nonempty (only
relevant in the send state). -/
def side_abs (c : Ctrl) (ri tv tne : Bool) : Ctrl :=
  if c.st = SerState.idle ∨ c.st = SerState.request then
    if c.ro && (!ri || c.pr) then ⟨SerState.send, false, c.ro, true⟩
    else if ri && (!c.ro || !c.pr) then ⟨SerState.receive, true, tv, false⟩
    else if c.st = SerState.idle then
      if tv then ⟨SerState.request, c.pr, true, false⟩
      else ⟨SerState.idle, c.pr, false, false⟩
    else ⟨c.st, c.pr, c.ro, false⟩
  else if c.st = SerState.send then
    if tne then c else ⟨SerState.idle, c.pr, false, false⟩
  else
    if ri then c
    else ⟨if c.ro then SerState.request else SerState.idle, c.pr, c.ro, c.drv⟩

/-- Control effect of one successful harness cycle. -/
def pair_abs (c : PairCtrl) (tv0 tv1 tne0 tne1 : Bool) : PairCtrl :=
  ⟨side_abs c.c0 c.ri0 tv0 tne0, side_abs c.c1 c.ri1 tv1 tne1,
    (side_abs c.c1 c.ri1 tv1 tne1).ro, (side_abs c.c0 c.ri0 tv0 tne0).ro⟩

/-- All control states reachable from reset (either complementary priority
assignment), closed under `pair_abs`. -/
def reachCtrl : List PairCtrl :=
  [ ⟨⟨.idle, false, false, false⟩, ⟨.idle, true, false, false⟩, false, false⟩,
    ⟨⟨.idle, false, false, false⟩, ⟨.receive, true, false, false⟩, false, false⟩,
    ⟨⟨.idle, false, false, false⟩, ⟨.receive, true, true, false⟩, true, false⟩,
    ⟨⟨.idle, false, false, false⟩, ⟨.request, true, true, false⟩, true, false⟩,
    ⟨⟨.idle, true, false, false⟩, ⟨.idle, false, false, false⟩, false, false⟩,
    ⟨⟨.idle, true, false, false⟩, ⟨.request, false, true, false⟩, true, false⟩,
    ⟨⟨.receive, true, false, false⟩, ⟨.idle, false, false, false⟩, false, false⟩,
    ⟨⟨.receive, true, false, false⟩, ⟨.request, true, true, false⟩, true, false⟩,
    ⟨⟨.receive, true, false, false⟩, ⟨.send, false, true, true⟩, true, false⟩,
    ⟨⟨.receive, true, true, false⟩, ⟨.idle, false, false, false⟩, false, true⟩,
    ⟨⟨.receive, true, true, false⟩, ⟨.request, true, true, false⟩, true, true⟩,
    ⟨⟨.receive, true, true, false⟩, ⟨.send, false, true, true⟩, true, true⟩,
    ⟨⟨.request, false, true, false⟩, ⟨.idle, true, false, false⟩, false, true⟩,
    ⟨⟨.request, false, true, false⟩, ⟨.request, true, true, false⟩, true, true⟩,
    ⟨⟨.request, true, true, false⟩, ⟨.idle, false, false, false⟩, false, true⟩,
    ⟨⟨.request, true, true, false⟩, ⟨.receive, true, false, false⟩, false, true⟩,
    ⟨⟨.request, true, true, false⟩, ⟨.receive, true, true, false⟩, true, true⟩,
    ⟨⟨.request, true, true, false⟩, ⟨.request, false, true, false⟩, true, true⟩,
    ⟨⟨.send, false, true, true⟩, ⟨.receive, true, false, false⟩, false, true⟩,
    ⟨⟨.send, false, true, true⟩, ⟨.receive, true, true, false⟩, true, true⟩ ]

theorem send_serial_packet_ctrl (s s' : bidir_serializer)
    (h : send_serial_packet s = some s') : ctrl s' = ctrl s := by
  simp only [send_serial_packet] at h
  by_cases hn : s.num_pins = 0
  · rw [if_pos hn] at h
    exact absurd h (by simp)
  · rw [if_neg hn] at h
    rcases hdp : dq_pops s.num_pins (pad_tdata s) with _ | pr
    · rw [hdp] at h
      exact absurd h (by simp)
    · rw [hdp] at h
      simp only [Option.some_bind] at h
      by_cases hl : s.serial_io.length = pr.1.length
      · rw [if_pos hl] at h
        simp only [Option.some.injEq] at h
        subst h
        rfl
      · rw [if_neg hl] at h
        exact absurd h (by simp)

theorem receive_serial_packet_ctrl (s s' : bidir_serializer)
    (h : receive_serial_packet s = some s') : ctrl s' = ctrl s := by
  simp only [receive_serial_packet] at h
  by_cases hl : (dq_extendleft s.rdata_size s.rdata_o s.serial_io).length ≤ s.rdata_size
  · rw [if_pos hl] at h
    simp only [Option.some.injEq] at h
    subst h
    rfl
  · rw [if_neg hl] at h
    exact absurd h (by simp)

set_option maxRecDepth 4000 in
theorem cycle_clock_ctrl (s : bidir_serializer) (ri : Bool) (si : List Nat)
    (rr tv : Bool) (ti : List Nat) (s' : bidir_serializer)
    (h : cycle_clock s ri si rr tv ti = some s') :
    ctrl s' = side_abs (ctrl s) ri tv (decide (s.tdata_r ≠ [])) := by
  simp only [cycle_clock] at h
  by_cases hg : ti.length ≤ s.tdata_size ∧ si.length = s.num_pins
  · rw [if_pos hg] at h
    cases hst : s.state with
    | idle =>
      by_cases hA : (s.req_o && (!ri || s.priority)) = true
      · simp only [hst, hA, reduceCtorEq, ne_eq,
          not_false_eq_true, and_self, if_true, true_or, if_pos] at h
        have e := send_serial_packet_ctrl _ _ h
        rw [e]
        simp [ctrl, side_abs, hst, hA]
      · by_cases hB : (ri && (!s.req_o || !s.priority)) = true
        · simp only [hst, hA, hB, reduceCtorEq, ne_eq,
            not_false_eq_true, and_self, if_true, true_or, if_false,
            Option.some.injEq] at h
          subst h
          simp [ctrl, side_abs, hst, hA, hB]
        · by_cases htv : tv = true
          · simp only [hst, hA, hB, htv, reduceCtorEq, ne_eq,
              not_false_eq_true, and_self, if_true, true_or, if_false,
              Option.some.injEq] at h
            subst h
            simp [ctrl, side_abs, hst, hA, hB, htv]
          · simp only [hst, hA, hB, htv, reduceCtorEq, ne_eq,
              not_false_eq_true, and_self, if_true, true_or, if_false,
              Option.some.injEq] at h
            subst h
            simp [ctrl, side_abs, hst, hA, hB, htv]
    | request =>
      by_cases hA : (s.req_o && (!ri || s.priority)) = true
      · simp only [hst, hA, reduceCtorEq, ne_eq,
          not_false_eq_true, not_true_eq_false, false_and, and_false, and_self,
          if_true, if_false, or_true, true_or] at h
        have e := send_serial_packet_ctrl _ _ h
        rw [e]
        simp [ctrl, side_abs, hst, hA]
      · by_cases hB : (ri && (!s.req_o || !s.priority)) = true
        · simp only [hst, hA, hB, reduceCtorEq, ne_eq,
            not_false_eq_true, not_true_eq_false, false_and, and_false, and_self,
            if_true, if_false, or_true, true_or, Option.some.injEq] at h
          subst h
          simp [ctrl, side_abs, hst, hA, hB]
        · simp only [hst, hA, hB, reduceCtorEq, ne_eq,
            not_false_eq_true, not_true_eq_false, false_and, and_false, and_self,
            if_true, if_false, or_true, true_or, Option.some.injEq] at h
          subst h
          simp [ctrl, side_abs, hst, hA, hB]
    | send =>
      by_cases hne : s.tdata_r ≠ []
      · simp only [hst, hne, reduceCtorEq, ne_eq,
          not_false_eq_true, not_true_eq_false, false_and, and_false, and_self,
          if_true, if_false, or_self, or_false, false_or] at h
        have e := send_serial_packet_ctrl _ _ h
        rw [e]
        simp [ctrl, side_abs, hst, hne]
      · have heq : s.tdata_r = [] := not_not.mp hne
        simp only [hst, heq, reduceCtorEq, ne_eq, not_false_eq_true,
          not_true_eq_false, false_and, and_false, and_self, if_true, if_false,
          or_self, or_false, false_or, Option.some.injEq] at h
        subst h
        simp [ctrl, side_abs, hst, heq]
    | receive =>
      by_cases hri : ri = true
      · simp only [hst, hri, reduceCtorEq, ne_eq,
          not_false_eq_true, not_true_eq_false, false_and, and_false, and_self,
          true_and, if_true, if_false, or_self, or_false, false_or] at h
        have e := receive_serial_packet_ctrl _ _ h
        rw [e]
        simp [ctrl, side_abs, hst, hri]
      · simp only [hst, hri, reduceCtorEq, ne_eq,
          not_false_eq_true, not_true_eq_false, false_and, and_false, and_self,
          true_and, if_true, if_false, or_self, or_false, false_or,
          Option.some.injEq] at h
        subst h
        simp [ctrl, side_abs, hst, hri]
  · rw [if_neg hg] at h
    exact absurd h (by simp)

theorem cycle_ctrl (p : SerPair) (rr0 tv0 : Bool) (td0 : List Nat)
    (rr1 tv1 : Bool) (td1 : List Nat) (p' : SerPair)
    (h : cycle p rr0 tv0 td0 rr1 tv1 td1 = some p') :
    pairCtrl p' = pair_abs (pairCtrl p) tv0 tv1
      (decide (p.d0.tdata_r ≠ [])) (decide (p.d1.tdata_r ≠ [])) := by
  simp only [cycle] at h
  rcases h0 : cycle_clock p.d0 p.req_i0 p.serial rr0 tv0 td0 with _ | d0 <;> rw [h0] at h
  · simp at h
  · rcases h1 : cycle_clock p.d1 p.req_i1 p.serial rr1 tv1 td1 with _ | d1 <;> rw [h1] at h
    · simp at h
    · simp only [Option.some_bind, Option.map_some', Option.some.injEq] at h
      subst h
      have e0 := cycle_clock_ctrl _ _ _ _ _ _ _ h0
      have e1 := cycle_clock_ctrl _ _ _ _ _ _ _ h1
      simp only [pairCtrl, pair_abs]
      rw [← e0, ← e1]
      rfl

/-- `reachCtrl` is closed under one harness cycle, for every input choice. -/
theorem reachCtrl_step :
    ∀ c ∈ reachCtrl, ∀ tv0 tv1 tne0 tne1,
      pair_abs c tv0 tv1 tne0 tne1 ∈ reachCtrl := by
  decide

/-- No control state in `reachCtrl` has both driving flags asserted. -/
theorem reachCtrl_safe :
    ∀ c ∈ reachCtrl, ¬(c.c0.drv = true ∧ c.c1.drv = true) := by
  decide

theorem run_pair_inv (ins : List CycleInput) :
    ∀ p p', pairCtrl p ∈ reachCtrl → run_pair p ins = some p' →
      pairCtrl p' ∈ reachCtrl := by
  induction ins with
  | nil =>
      intro p p' hp h
      simp only [run_pair, Option.some.injEq] at h
      subst h
      exact hp
  | cons i rest ih =>
      intro p p' hp h
      simp only [run_pair] at h
      rcases hc : cycle p i.rr0 i.tv0 i.td0 i.rr1 i.tv1 i.td1 with _ | q <;> rw [hc] at h
      · simp at h
      · simp only [Option.some_bind] at h
        have hq : pairCtrl q ∈ reachCtrl := by
          rw [cycle_ctrl p _ _ _ _ _ _ q hc]
          exact reachCtrl_step _ hp _ _ _ _
        exact ih q p' hq h

/-- C9.  Shared-pin driving mutual exclusion: for two `bidir_serializer`
instances cross-wired as in the test harness (each side's `req_o` fed as the
other's `req_i`, shared serial bus), starting from reset with complementary
initial priority flags, after every sequence of simultaneous cycle pairs —
every interleaving of `tvalid`/`tdata`/`rready` inputs on both sides — the two
`driving` flags are never both asserted. -/
theorem bidir_driving_mutex (num_pins tmsg rmsg : Nat) (b : Bool)
    (ins : List CycleInput) (p' : SerPair)
    (h : run_pair (init_pair num_pins b tmsg rmsg) ins = some p') :
    ¬(p'.d0.driving = true ∧ p'.d1.driving = true) := by
  have hc : pairCtrl (init_pair num_pins b tmsg rmsg) =
      ⟨⟨SerState.idle, b, false, false⟩, ⟨SerState.idle, !b, false, false⟩,
        false, false⟩ := rfl
  have hinit : pairCtrl (init_pair num_pins b tmsg rmsg) ∈ reachCtrl := by
    rw [hc]
    cases b <;> decide
  have hmem := run_pair_inv ins _ p' hinit h
  have hsafe := reachCtrl_safe _ hmem
  simpa [pairCtrl, ctrl] using hsafe

/-- One concrete harness cycle: side 0 raises `tvalid` with a one-bit message,
side 1 stays quiet. -/
def demo_input : CycleInput := ⟨true, true, [1], true, false, []⟩

/-- State of the pair after two concrete cycles from reset. -/
def demo_pair : SerPair :=
  (run_pair (init_pair 1 false 8 8) [demo_input, demo_input]).getD
    (init_pair 1 false 8 8)

/-- Witness for C9 at the concrete two-cycle run of `demo_pair`. -/
theorem bidir_driving_mutex_witness :
    ¬(demo_pair.d0.driving = true ∧ demo_pair.d1.driving = true) :=
  bidir_driving_mutex 1 8 8 false [demo_input, demo_input] demo_pair (by rfl)

end Ser

/-!
## `src/Untitled-1.py` — MESI cache coherence model (snooping bus)

Shallow embedding of the `Bus`/`Cache` classes for a system of two caches
attached to one bus.  Python dicts become key-deduplicated association lists
(`dget`/`dset`/`dremove`); in-place mutation of a `Line` object held by a dict
becomes `dset` at the key under which the object is stored.  Addresses are
`Int` (Python ints; `//` is `Int.fdiv`).  The injected `memory` object is
modelled as an ideal total byte store `Int → Nat`.  Python exceptions
(`lru.pop(0)`/`lines.pop` on empty, byte indexing out of range, division by
zero in `_align_base`) make the operations return `Option`.  The `_stats`
counters and log output carry no behaviour and are omitted.
-/

namespace Mesi

inductive State
  | I
  | S
  | E
  | M
deriving DecidableEq

structure Line where
  base : Int
  data : List Nat
  state : State
deriving DecidableEq

/-- Dict lookup (`lines.get(base)`). -/
def dget : List (Int × Line) → Int → Option Line
  | [], _ => none
  | p :: rest, k => if p.1 = k then some p.2 else dget rest k

/-- Dict key removal (`lines.pop(base)` after the key has been checked). -/
def dremove : List (Int × Line) → Int → List (Int × Line)
  | [], _ => []
  | p :: rest, k => if p.1 = k then dremove rest k else p :: dremove rest k

/-- Dict store (`lines[base] = line`), keeping keys unique. -/
def dset (l : List (Int × Line)) (k : Int) (v : Line) : List (Int × Line) :=
  (k, v) :: dremove l k

structure Cache where
  base_addr : Int
  line_size : Int
  capacity_lines : Int
  lines : List (Int × Line)
  lru : List Int
deriving DecidableEq

/-- Two caches (ids 0 and 1) on one bus; `bus_line_size` is the bus's
`line_size` used for memory reads, `mem` the backing store. -/
structure Sys where
  mem : Int → Nat
  bus_line_size : Int
  c0 : Cache
  c1 : Cache

def get_cache (s : Sys) (cid : Nat) : Cache :=
  if cid = 0 then s.c0 else s.c1

def set_cache (s : Sys) (cid : Nat) (c : Cache) : Sys :=
  if cid = 0 then { s with c0 := c } else { s with c1 := c }

/-- `memory.read(base, n)` of the ideal byte store. -/
def mem_read (m : Int → Nat) (base n : Int) : List Nat :=
  (List.range n.toNat).map fun i => m (base + i)

/-- `memory.write(base, data)` of the ideal byte store. -/
def mem_write (m : Int → Nat) (base : Int) (d : List Nat) : Int → Nat :=
  fun a => if base ≤ a ∧ a < base + d.length then d.getD (a - base).toNat 0 else m a

/-- `Bus.busrd`: snoop the other cache (M writes back and downgrades to S, E
downgrades to S, S stays), then read the line from memory.  Returns the new
system, the line data and the `shared` flag. -/
def busrd (s : Sys) (cid : Nat) (base : Int) : Sys × List Nat × Bool :=
  match dget (get_cache s (1 - cid)).lines base with
  | none => (s, mem_read s.mem base s.bus_line_size, false)
  | some line =>
    if line.state = State.I then (s, mem_read s.mem base s.bus_line_size, false)
    else
      let other := get_cache s (1 - cid)
      let s1 :=
        if line.state = State.M then
          set_cache { s with mem := mem_write s.mem base line.data } (1 - cid)
            { other with lines := dset other.lines base { line with state := State.S } }
        else if line.state = State.E then
          set_cache s (1 - cid)
            { other with lines := dset other.lines base { line with state := State.S } }
        else s
      (s1, mem_read s1.mem base s.bus_line_size, true)

/-- `Bus.busrdx`: snoop the other cache (M writes back), invalidate its copy,
then read the line from memory. -/
def busrdx (s : Sys) (cid : Nat) (base : Int) : Sys × List Nat :=
  match dget (get_cache s (1 - cid)).lines base with
  | none => (s, mem_read s.mem base s.bus_line_size)
  | some line =>
    if line.state = State.I then (s, mem_read s.mem base s.bus_line_size)
    else
      let other := get_cache s (1 - cid)
      let s1 :=
        if line.state = State.M then { s with mem := mem_write s.mem base line.data }
        else s
      let s2 := set_cache s1 (1 - cid)
        { other with lines := dset other.lines base { line with state := State.I } }
      (s2, mem_read s2.mem base s.bus_line_size)

/-- `Bus.busupgr`: invalidate the other cache's copy if present and valid. -/
def busupgr (s : Sys) (cid : Nat) (base : Int) : Sys :=
  match dget (get_cache s (1 - cid)).lines base with
  | none => s
  | some line =>
    if line.state = State.I then s
    else
      let other := get_cache s (1 - cid)
      set_cache s (1 - cid)
        { other with lines := dset other.lines base { line with state := State.I } }

/-- `Cache._align_base` (`//` is Python floor division; `none` is the
ZeroDivisionError for `line_size = 0`). -/
def align_base (c : Cache) (addr : Int) : Option Int :=
  if c.line_size = 0 then none
  else some (c.base_addr + ((addr - c.base_addr).fdiv c.line_size) * c.line_size)

/-- `Cache._touch`. -/
def touch (c : Cache) (base : Int) : Cache :=
  { c with lru := (if c.lru.contains base then c.lru.erase base else c.lru) ++ [base] }

/-- `Cache._evict_if_needed`: below capacity do nothing, otherwise pop the LRU
victim from both structures, writing an M victim back to memory.  `none` is
`lru.pop(0)` on an empty list or `lines.pop` on a missing key. -/
def evict_if_needed (c : Cache) (m : Int → Nat) : Option (Cache × (Int → Nat)) :=
  if (c.lines.length : Int) < c.capacity_lines then some (c, m)
  else
    match c.lru with
    | [] => none
    | b :: rest =>
      match dget c.lines b with
      | none => none
      | some victim =>
        let c1 : Cache := { c with lru := rest, lines := dremove c.lines b }
        if victim.state = State.M then some (c1, mem_write m b victim.data)
        else some (c1, m)

/-- `Cache._install_line`: evict if needed, store the fresh line, touch LRU.
Returns the new cache, the (possibly writeback-updated) memory and the line. -/
def install_line (c : Cache) (m : Int → Nat) (base : Int) (data : List Nat)
    (st : State) : Option (Cache × (Int → Nat) × Line) :=
  (evict_if_needed c m).map fun cm =>
    (touch { cm.1 with lines := dset cm.1.lines base ⟨base, data, st⟩ } base,
      cm.2, ⟨base, data, st⟩)

/-- Miss tail of `Cache._get_line_for_read`: BusRd, then install as S when
shared, E otherwise.  Returns the system, the line's dict key and the line. -/
def read_miss (s : Sys) (cid : Nat) (base : Int) : Option (Sys × Int × Line) :=
  let r := busrd s cid base
  (install_line (get_cache r.1 cid) r.1.mem base r.2.1
      (if r.2.2 then State.S else State.E)).map fun cml =>
    (set_cache { r.1 with mem := cml.2.1 } cid cml.1, base, cml.2.2)

/-- `Cache._get_line_for_read`: hit on a present non-I line touches LRU and
returns it, otherwise the BusRd miss path. -/
def get_line_for_read (s : Sys) (cid : Nat) (addr : Int) :
    Option (Sys × Int × Line) :=
  (align_base (get_cache s cid) addr).bind fun base =>
  match dget (get_cache s cid).lines base with
  | some line =>
    if line.state ≠ State.I then
      some (set_cache s cid (touch (get_cache s cid) base), base, line)
    else read_miss s cid base
  | none => read_miss s cid base

/-- Miss tail of `Cache._get_line_for_write`: BusRdX, then install as M. -/
def write_miss (s : Sys) (cid : Nat) (base : Int) : Option (Sys × Int × Line) :=
  let r := busrdx s cid base
  (install_line (get_cache r.1 cid) r.1.mem base r.2 State.M).map fun cml =>
    (set_cache { r.1 with mem := cml.2.1 } cid cml.1, base, cml.2.2)

/-- `Cache._get_line_for_write`: hit in S issues BusUpgr and goes M, hit in E
silently goes M, hit in M stays; a miss takes the BusRdX path. -/
def get_line_for_write (s : Sys) (cid : Nat) (addr : Int) :
    Option (Sys × Int × Line) :=
  (align_base (get_cache s cid) addr).bind fun base =>
  match dget (get_cache s cid).lines base with
  | some line =>
    if line.state ≠ State.I then
      let s1 := set_cache s cid (touch (get_cache s cid) base)
      if line.state = State.S then
        let s2 := busupgr s1 cid base
        some (set_cache s2 cid
          { get_cache s2 cid with
              lines := dset (get_cache s2 cid).lines base { line with state := State.M } },
          base, { line with state := State.M })
      else if line.state = State.E then
        some (set_cache s1 cid
          { get_cache s1 cid with
              lines := dset (get_cache s1 cid).lines base { line with state := State.M } },
          base, { line with state := State.M })
      else some (s1, base, line)
    else write_miss s cid base
  | none => write_miss s cid base

/-- Python sequence indexing with negative-index wrap (`none` is IndexError). -/
def py_index (d : List Nat) (i : Int) : Option Nat :=
  if 0 ≤ i then
    if i < (d.length : Int) then some (d.getD i.toNat 0) else none
  else
    if -(d.length : Int) ≤ i then some (d.getD ((d.length : Int) + i).toNat 0)
    else none

/-- Python sequence element assignment with negative-index wrap. -/
def py_set (d : List Nat) (i : Int) (v : Nat) : Option (List Nat) :=
  if 0 ≤ i then
    if i < (d.length : Int) then some (d.set i.toNat v) else none
  else
    if -(d.length : Int) ≤ i then some (d.set ((d.length : Int) + i).toNat v)
    else none

/-- `Cache.read_byte`. -/
def read_byte (s : Sys) (cid : Nat) (addr : Int) : Option (Sys × Nat) :=
  (get_line_for_read s cid addr).bind fun x =>
    (py_index x.2.2.data (addr - x.2.2.base)).map fun v => (x.1, v)

/-- `Cache.write_byte`: acquire the line for writing, store the byte
(`value & 0xFF`), set the line state to M (the in-place mutation lands at the
line's dict key). -/
def write_byte (s : Sys) (cid : Nat) (addr : Int) (value : Nat) : Option Sys :=
  (get_line_for_write s cid addr).bind fun x =>
    (py_set x.2.2.data (addr - x.2.2.base) (value &&& 0xFF)).map fun d2 =>
      set_cache x.1 cid
        { get_cache x.1 cid with
            lines := dset (get_cache x.1 cid).lines x.2.1 ⟨x.2.2.base, d2, State.M⟩ }

/-- A fresh two-cache system: both caches have empty `lines`/`lru`. -/
def init_sys (mem : Int → Nat) (bus_ls b0 l0 cap0 b1 l1 cap1 : Int) : Sys :=
  { mem := mem, bus_line_size := bus_ls,
    c0 := ⟨b0, l0, cap0, [], []⟩, c1 := ⟨b1, l1, cap1, [], []⟩ }

/-- One testbench operation: a byte read or a byte write by one of the two
caches (evictions happen inside the miss paths). -/
inductive MesiOp
  | read (cache_id : Nat) (addr : Int)
  | write (cache_id : Nat) (addr : Int) (value : Nat)

def run_op (s : Sys) : MesiOp → Option Sys
  | .read cache_id addr =>
      (read_byte s (if cache_id = 0 then 0 else 1) addr).map Prod.fst
  | .write cache_id addr value =>
      write_byte s (if cache_id = 0 then 0 else 1) addr value

def run_ops (s : Sys) : List MesiOp → Option Sys
  | [] => some s
  | op :: rest => (run_op s op).bind fun s1 => run_ops s1 rest

/-- `Cache.peek_state` keyed directly by line base: the MESI state of the
line at that base, I when absent. -/
def line_state (c : Cache) (b : Int) : State :=
  match dget c.lines b with
  | none => State.I
  | some line => line.state

/-- MESI mutual exclusion at one line base: if either cache holds the line in
M or E, the other cache's copy is absent or I. -/
def addr_inv (s : Sys) (b : Int) : Prop :=
  ((line_state s.c0 b = State.M ∨ line_state s.c0 b = State.E) →
    line_state s.c1 b = State.I) ∧
  ((line_state s.c1 b = State.M ∨ line_state s.c1 b = State.E) →
    line_state s.c0 b = State.I)

def sys_inv (s : Sys) : Prop := ∀ b, addr_inv s b

end Mesi

namespace Mesi

theorem dget_dremove_other (l : List (Int × Line)) (k b : Int) (h : b ≠ k) :
    dget (dremove l k) b = dget l b := by
  induction l with
  | nil => rfl
  | cons p rest ih =>
      by_cases hp : p.1 = k
      · rw [show dremove (p :: rest) k = dremove rest k from by simp [dremove, hp]]
        rw [ih]
        rw [show dget (p :: rest) b = if p.1 = b then some p.2 else dget rest b from rfl]
        rw [if_neg (fun hh : p.1 = b => h (hh.symm.trans hp))]
      · rw [show dremove (p :: rest) k = p :: dremove rest k from by simp [dremove, hp]]
        rw [show dget (p :: dremove rest k) b
          = if p.1 = b then some p.2 else dget (dremove rest k) b from rfl]
        rw [show dget (p :: rest) b = if p.1 = b then some p.2 else dget rest b from rfl]
        rw [ih]

theorem dget_dremove_same (l : List (Int × Line)) (k : Int) :
    dget (dremove l k) k = none := by
  induction l with
  | nil => rfl
  | cons p rest ih =>
      by_cases hp : p.1 = k
      · rw [show dremove (p :: rest) k = dremove rest k from by simp [dremove, hp]]
        exact ih
      · rw [show dremove (p :: rest) k = p :: dremove rest k from by simp [dremove, hp]]
        rw [show dget (p :: dremove rest k) k
          = if p.1 = k then some p.2 else dget (dremove rest k) k from rfl]
        rw [if_neg hp]
        exact ih

theorem dget_dset_same (l : List (Int × Line)) (k : Int) (v : Line) :
    dget (dset l k v) k = some v := by
  simp [dset, dget]

theorem dget_dset_other (l : List (Int × Line)) (k b : Int) (v : Line) (h : b ≠ k) :
    dget (dset l k v) b = dget l b := by
  rw [show dget (dset l k v) b
    = if k = b then some v else dget (dremove l k) b from rfl]
  rw [if_neg (fun hh => h hh.symm), dget_dremove_other l k b h]

theorem line_state_touch (c : Cache) (b0 b : Int) :
    line_state (touch c b0) b = line_state c b := rfl

theorem line_state_dset_same (c : Cache) (k : Int) (v : Line) :
    line_state { c with lines := dset c.lines k v } k = v.state := by
  simp [line_state, dget_dset_same]

theorem line_state_dset_other (c : Cache) (k b : Int) (v : Line) (h : b ≠ k) :
    line_state { c with lines := dset c.lines k v } b = line_state c b := by
  simp only [line_state, dget_dset_other c.lines k b v h]

end Mesi

namespace Mesi

theorem busrd0_spec (s : Sys) (base : Int) :
    (busrd s 0 base).1.c0 = s.c0 ∧
    (∀ b, b ≠ base → line_state (busrd s 0 base).1.c1 b = line_state s.c1 b) ∧
    ((busrd s 0 base).2.2 = true → line_state (busrd s 0 base).1.c1 base = State.S) ∧
    ((busrd s 0 base).2.2 = false → line_state (busrd s 0 base).1.c1 base = State.I) := by
  have hgc : get_cache s (1 - 0) = s.c1 := rfl
  unfold busrd
  rw [hgc]
  rcases hd : dget s.c1.lines base with _ | line
  · exact ⟨by trivial, fun b hb => by trivial, fun h => absurd h (by simp),
      fun _ => by simp [line_state, hd]⟩
  · rcases hst : line.state with _ | _ | _ | _
    · simp only [hst, reduceIte]
      exact ⟨by trivial, fun b hb => by trivial, fun h => absurd h (by simp),
        fun _ => by simp [line_state, hd, hst]⟩
    · simp only [hst, reduceCtorEq, reduceIte, set_cache, get_cache]
      exact ⟨by trivial, fun b hb => by trivial, fun _ => by simp [line_state, hd, hst],
        fun h => absurd h (by simp)⟩
    · simp only [hst, reduceCtorEq, reduceIte, set_cache, get_cache]
      refine ⟨by trivial, fun b hb => ?_, fun _ => ?_, fun h => absurd h (by simp)⟩
      · exact line_state_dset_other s.c1 base b _ hb
      · exact line_state_dset_same s.c1 base _
    · simp only [hst, reduceCtorEq, reduceIte, set_cache, get_cache]
      refine ⟨by trivial, fun b hb => ?_, fun _ => ?_, fun h => absurd h (by simp)⟩
      · exact line_state_dset_other s.c1 base b _ hb
      · exact line_state_dset_same s.c1 base _

theorem busrd1_spec (s : Sys) (base : Int) :
    (busrd s 1 base).1.c1 = s.c1 ∧
    (∀ b, b ≠ base → line_state (busrd s 1 base).1.c0 b = line_state s.c0 b) ∧
    ((busrd s 1 base).2.2 = true → line_state (busrd s 1 base).1.c0 base = State.S) ∧
    ((busrd s 1 base).2.2 = false → line_state (busrd s 1 base).1.c0 base = State.I) := by
  have hgc : get_cache s (1 - 1) = s.c0 := rfl
  unfold busrd
  rw [hgc]
  rcases hd : dget s.c0.lines base with _ | line
  · exact ⟨by trivial, fun b hb => by trivial, fun h => absurd h (by simp),
      fun _ => by simp [line_state, hd]⟩
  · rcases hst : line.state with _ | _ | _ | _
    · simp only [hst, reduceIte]
      exact ⟨by trivial, fun b hb => by trivial, fun h => absurd h (by simp),
        fun _ => by simp [line_state, hd, hst]⟩
    · simp only [hst, reduceCtorEq, reduceIte, set_cache, get_cache]
      exact ⟨by trivial, fun b hb => by trivial, fun _ => by simp [line_state, hd, hst],
        fun h => absurd h (by simp)⟩
    · simp only [hst, reduceCtorEq, reduceIte, set_cache, get_cache]
      refine ⟨by trivial, fun b hb => ?_, fun _ => ?_, fun h => absurd h (by simp)⟩
      · exact line_state_dset_other s.c0 base b _ hb
      · exact line_state_dset_same s.c0 base _
    · simp only [hst, reduceCtorEq, reduceIte, set_cache, get_cache]
      refine ⟨by trivial, fun b hb => ?_, fun _ => ?_, fun h => absurd h (by simp)⟩
      · exact line_state_dset_other s.c0 base b _ hb
      · exact line_state_dset_same s.c0 base _

theorem busrdx0_spec (s : Sys) (base : Int) :
    (busrdx s 0 base).1.c0 = s.c0 ∧
    (∀ b, b ≠ base → line_state (busrdx s 0 base).1.c1 b = line_state s.c1 b) ∧
    line_state (busrdx s 0 base).1.c1 base = State.I := by
  have hgc : get_cache s (1 - 0) = s.c1 := rfl
  unfold busrdx
  rw [hgc]
  rcases hd : dget s.c1.lines base with _ | line
  · exact ⟨by trivial, fun b hb => by trivial, by simp [line_state, hd]⟩
  · rcases hst : line.state with _ | _ | _ | _ <;>
      simp only [hst, reduceCtorEq, reduceIte, set_cache, get_cache]
    · exact ⟨by trivial, fun b hb => by trivial, by simp [line_state, hd, hst]⟩
    · exact ⟨by trivial, fun b hb => line_state_dset_other s.c1 base b _ hb,
        line_state_dset_same s.c1 base _⟩
    · exact ⟨by trivial, fun b hb => line_state_dset_other s.c1 base b _ hb,
        line_state_dset_same s.c1 base _⟩
    · exact ⟨by trivial, fun b hb => line_state_dset_other s.c1 base b _ hb,
        line_state_dset_same s.c1 base _⟩

theorem busrdx1_spec (s : Sys) (base : Int) :
    (busrdx s 1 base).1.c1 = s.c1 ∧
    (∀ b, b ≠ base → line_state (busrdx s 1 base).1.c0 b = line_state s.c0 b) ∧
    line_state (busrdx s 1 base).1.c0 base = State.I := by
  have hgc : get_cache s (1 - 1) = s.c0 := rfl
  unfold busrdx
  rw [hgc]
  rcases hd : dget s.c0.lines base with _ | line
  · exact ⟨by trivial, fun b hb => by trivial, by simp [line_state, hd]⟩
  · rcases hst : line.state with _ | _ | _ | _ <;>
      simp only [hst, reduceCtorEq, reduceIte, set_cache, get_cache]
    · exact ⟨by trivial, fun b hb => by trivial, by simp [line_state, hd, hst]⟩
    · exact ⟨by trivial, fun b hb => line_state_dset_other s.c0 base b _ hb,
        line_state_dset_same s.c0 base _⟩
    · exact ⟨by trivial, fun b hb => line_state_dset_other s.c0 base b _ hb,
        line_state_dset_same s.c0 base _⟩
    · exact ⟨by trivial, fun b hb => line_state_dset_other s.c0 base b _ hb,
        line_state_dset_same s.c0 base _⟩

theorem busupgr0_spec (s : Sys) (base : Int) :
    (busupgr s 0 base).c0 = s.c0 ∧
    (∀ b, b ≠ base → line_state (busupgr s 0 base).c1 b = line_state s.c1 b) ∧
    line_state (busupgr s 0 base).c1 base = State.I := by
  have hgc : get_cache s (1 - 0) = s.c1 := rfl
  unfold busupgr
  rw [hgc]
  rcases hd : dget s.c1.lines base with _ | line
  · exact ⟨by trivial, fun b hb => by trivial, by simp [line_state, hd]⟩
  · rcases hst : line.state with _ | _ | _ | _ <;>
      simp only [hst, reduceCtorEq, reduceIte, set_cache, get_cache]
    · exact ⟨by trivial, fun b hb => by trivial, by simp [line_state, hd, hst]⟩
    · exact ⟨by trivial, fun b hb => line_state_dset_other s.c1 base b _ hb,
        line_state_dset_same s.c1 base _⟩
    · exact ⟨by trivial, fun b hb => line_state_dset_other s.c1 base b _ hb,
        line_state_dset_same s.c1 base _⟩
    · exact ⟨by trivial, fun b hb => line_state_dset_other s.c1 base b _ hb,
        line_state_dset_same s.c1 base _⟩

theorem busupgr1_spec (s : Sys) (base : Int) :
    (busupgr s 1 base).c1 = s.c1 ∧
    (∀ b, b ≠ base → line_state (busupgr s 1 base).c0 b = line_state s.c0 b) ∧
    line_state (busupgr s 1 base).c0 base = State.I := by
  have hgc : get_cache s (1 - 1) = s.c0 := rfl
  unfold busupgr
  rw [hgc]
  rcases hd : dget s.c0.lines base with _ | line
  · exact ⟨by trivial, fun b hb => by trivial, by simp [line_state, hd]⟩
  · rcases hst : line.state with _ | _ | _ | _ <;>
      simp only [hst, reduceCtorEq, reduceIte, set_cache, get_cache]
    · exact ⟨by trivial, fun b hb => by trivial, by simp [line_state, hd, hst]⟩
    · exact ⟨by trivial, fun b hb => line_state_dset_other s.c0 base b _ hb,
        line_state_dset_same s.c0 base _⟩
    · exact ⟨by trivial, fun b hb => line_state_dset_other s.c0 base b _ hb,
        line_state_dset_same s.c0 base _⟩
    · exact ⟨by trivial, fun b hb => line_state_dset_other s.c0 base b _ hb,
        line_state_dset_same s.c0 base _⟩

end Mesi

namespace Mesi

theorem evict_spec (c : Cache) (m : Int → Nat) (cm : Cache × (Int → Nat))
    (h : evict_if_needed c m = some cm) :
    ∀ b, line_state cm.1 b = line_state c b ∨ line_state cm.1 b = State.I := by
  intro b
  by_cases hcap : (c.lines.length : Int) < c.capacity_lines
  · simp only [evict_if_needed, if_pos hcap, Option.some.injEq] at h
    rw [← h]
    exact Or.inl rfl
  · rcases hlru : c.lru with _ | ⟨v, rest⟩
    · simp only [evict_if_needed, if_neg hcap, hlru, reduceCtorEq] at h
    · rcases hv : dget c.lines v with _ | victim
      · simp only [evict_if_needed, if_neg hcap, hlru, hv, reduceCtorEq] at h
      · have htail : cm.1 = { c with lru := rest, lines := dremove c.lines v } := by
          by_cases hm : victim.state = State.M
          · simp only [evict_if_needed, if_neg hcap, hlru, hv, if_pos hm,
              Option.some.injEq] at h
            rw [← h]
          · simp only [evict_if_needed, if_neg hcap, hlru, hv, if_neg hm,
              Option.some.injEq] at h
            rw [← h]
        rw [htail]
        by_cases hb : b = v
        · subst hb
          right
          simp [line_state, dget_dremove_same]
        · left
          simp [line_state, dget_dremove_other c.lines v b hb]

theorem install_spec (c : Cache) (m : Int → Nat) (base : Int) (data : List Nat)
    (st : State) (x : Cache × (Int → Nat) × Line)
    (h : install_line c m base data st = some x) :
    x.2.2 = ⟨base, data, st⟩ ∧ line_state x.1 base = st ∧
      ∀ b, b ≠ base →
        (line_state x.1 b = line_state c b ∨ line_state x.1 b = State.I) := by
  simp only [install_line] at h
  rcases he : evict_if_needed c m with _ | cm <;> rw [he] at h
  · simp at h
  · simp only [Option.map_some', Option.some.injEq] at h
    subst h
    refine ⟨rfl, ?_, ?_⟩
    · rw [line_state_touch]
      exact line_state_dset_same cm.1 base _
    · intro b hb
      rw [line_state_touch, line_state_dset_other cm.1 base b _ hb]
      exact evict_spec c m cm he b

theorem read_miss0_inv (s : Sys) (base : Int) (hinv : sys_inv s) :
    ∀ x, read_miss s 0 base = some x → sys_inv x.1 := by
  intro x h
  simp only [read_miss] at h
  obtain ⟨hc0, hother, hsh, hnsh⟩ := busrd0_spec s base
  rcases hi : install_line (get_cache (busrd s 0 base).1 0) (busrd s 0 base).1.mem
      base (busrd s 0 base).2.1
      (if (busrd s 0 base).2.2 then State.S else State.E) with _ | cml <;> rw [hi] at h
  · simp at h
  · simp only [Option.map_some', Option.some.injEq] at h
    obtain ⟨hline, hbase, hrest⟩ := install_spec _ _ _ _ _ _ hi
    rw [← h]
    intro b
    unfold addr_inv
    rw [show (set_cache { (busrd s 0 base).1 with mem := cml.2.1 } 0 cml.1).c0
      = cml.1 from rfl]
    rw [show (set_cache { (busrd s 0 base).1 with mem := cml.2.1 } 0 cml.1).c1
      = (busrd s 0 base).1.c1 from rfl]
    by_cases hb : b = base
    · rw [hb]
      rcases hshv : (busrd s 0 base).2.2 with _ | _
      · rw [hshv] at hbase
        simp only [Bool.false_eq_true, if_false, reduceIte] at hbase
        rw [hbase, hnsh hshv]
        simp
      · rw [hshv] at hbase
        simp only [if_true, reduceIte] at hbase
        rw [hbase, hsh hshv]
        simp
    · rw [hother b hb]
      rcases hrest b hb with hold | hI
      · rw [hold, show get_cache (busrd s 0 base).1 0 = (busrd s 0 base).1.c0 from rfl, hc0]
        exact hinv b
      · rw [hI]
        simp

theorem read_miss1_inv (s : Sys) (base : Int) (hinv : sys_inv s) :
    ∀ x, read_miss s 1 base = some x → sys_inv x.1 := by
  intro x h
  simp only [read_miss] at h
  obtain ⟨hc1, hother, hsh, hnsh⟩ := busrd1_spec s base
  rcases hi : install_line (get_cache (busrd s 1 base).1 1) (busrd s 1 base).1.mem
      base (busrd s 1 base).2.1
      (if (busrd s 1 base).2.2 then State.S else State.E) with _ | cml <;> rw [hi] at h
  · simp at h
  · simp only [Option.map_some', Option.some.injEq] at h
    obtain ⟨hline, hbase, hrest⟩ := install_spec _ _ _ _ _ _ hi
    rw [← h]
    intro b
    unfold addr_inv
    rw [show (set_cache { (busrd s 1 base).1 with mem := cml.2.1 } 1 cml.1).c1
      = cml.1 from rfl]
    rw [show (set_cache { (busrd s 1 base).1 with mem := cml.2.1 } 1 cml.1).c0
      = (busrd s 1 base).1.c0 from rfl]
    by_cases hb : b = base
    · rw [hb]
      rcases hshv : (busrd s 1 base).2.2 with _ | _
      · rw [hshv] at hbase
        simp only [Bool.false_eq_true, if_false, reduceIte] at hbase
        rw [hbase, hnsh hshv]
        simp
      · rw [hshv] at hbase
        simp only [if_true, reduceIte] at hbase
        rw [hbase, hsh hshv]
        simp
    · rw [hother b hb]
      rcases hrest b hb with hold | hI
      · rw [hold, show get_cache (busrd s 1 base).1 1 = (busrd s 1 base).1.c1 from rfl, hc1]
        exact hinv b
      · rw [hI]
        simp

end Mesi

namespace Mesi

theorem write_miss0_inv (s : Sys) (base : Int) (hinv : sys_inv s) :
    ∀ x, write_miss s 0 base = some x →
      sys_inv x.1 ∧ x.2.1 = base ∧ line_state x.1.c1 x.2.1 = State.I := by
  intro x h
  simp only [write_miss] at h
  obtain ⟨hc0, hother, hI⟩ := busrdx0_spec s base
  rcases hi : install_line (get_cache (busrdx s 0 base).1 0) (busrdx s 0 base).1.mem
      base (busrdx s 0 base).2 State.M with _ | cml <;> rw [hi] at h
  · simp at h
  · simp only [Option.map_some', Option.some.injEq] at h
    obtain ⟨hline, hbase, hrest⟩ := install_spec _ _ _ _ _ _ hi
    rw [← h]
    refine ⟨?_, rfl, ?_⟩
    · intro b
      unfold addr_inv
      rw [show (set_cache { (busrdx s 0 base).1 with mem := cml.2.1 } 0 cml.1).c0
        = cml.1 from rfl]
      rw [show (set_cache { (busrdx s 0 base).1 with mem := cml.2.1 } 0 cml.1).c1
        = (busrdx s 0 base).1.c1 from rfl]
      by_cases hb : b = base
      · rw [hb, hbase, hI]
        simp
      · rw [hother b hb]
        rcases hrest b hb with hold | hIb
        · rw [hold, show get_cache (busrdx s 0 base).1 0
            = (busrdx s 0 base).1.c0 from rfl, hc0]
          exact hinv b
        · rw [hIb]
          simp
    · rw [show (set_cache { (busrdx s 0 base).1 with mem := cml.2.1 } 0 cml.1).c1
        = (busrdx s 0 base).1.c1 from rfl]
      exact hI

theorem get_line_for_read0_inv (s : Sys) (addr : Int) (hinv : sys_inv s) :
    ∀ x, get_line_for_read s 0 addr = some x → sys_inv x.1 := by
  intro x h
  simp only [get_line_for_read] at h
  rcases ha : align_base (get_cache s 0) addr with _ | base <;> rw [ha] at h
  · simp at h
  · simp only [Option.some_bind] at h
    rcases hd : dget (get_cache s 0).lines base with _ | line
    · simp only [hd] at h
      exact read_miss0_inv s base hinv x h
    · simp only [hd] at h
      by_cases hne : line.state ≠ State.I
      · rw [if_pos hne] at h
        simp only [Option.some.injEq] at h
        rw [← h]
        intro b
        unfold addr_inv
        rw [show (set_cache s 0 (touch (get_cache s 0) base)).c0
          = touch s.c0 base from rfl]
        rw [show (set_cache s 0 (touch (get_cache s 0) base)).c1 = s.c1 from rfl]
        rw [line_state_touch s.c0 base b]
        exact hinv b
      · rw [if_neg hne] at h
        exact read_miss0_inv s base hinv x h

theorem read_byte0_inv (s : Sys) (addr : Int) (hinv : sys_inv s) :
    ∀ y, read_byte s 0 addr = some y → sys_inv y.1 := by
  intro y h
  simp only [read_byte] at h
  rcases hg : get_line_for_read s 0 addr with _ | x <;> rw [hg] at h
  · simp at h
  · simp only [Option.some_bind] at h
    rcases hp : py_index x.2.2.data (addr - x.2.2.base) with _ | v <;> rw [hp] at h
    · simp at h
    · simp only [Option.map_some', Option.some.injEq] at h
      rw [← h]
      exact get_line_for_read0_inv s addr hinv x hg

theorem get_line_for_write0_inv (s : Sys) (addr : Int) (hinv : sys_inv s) :
    ∀ x, get_line_for_write s 0 addr = some x →
      sys_inv x.1 ∧ line_state x.1.c1 x.2.1 = State.I := by
  intro x h
  simp only [get_line_for_write] at h
  rcases ha : align_base (get_cache s 0) addr with _ | base <;> rw [ha] at h
  · simp at h
  · simp only [Option.some_bind] at h
    rcases hd : dget (get_cache s 0).lines base with _ | line
    · simp only [hd] at h
      obtain ⟨h1, h2, h3⟩ := write_miss0_inv s base hinv x h
      exact ⟨h1, h3⟩
    · simp only [hd] at h
      by_cases hne : line.state ≠ State.I
      · rw [if_pos hne] at h
        rcases hst : line.state with _ | _ | _ | _
        · exact absurd hst (by simpa using hne)
        · -- S: BusUpgr then upgrade to M
          simp only [hst, reduceCtorEq, reduceIte, Option.some.injEq] at h
          obtain ⟨hu0, huo, huI⟩ :=
            busupgr0_spec (set_cache s 0 (touch (get_cache s 0) base)) base
          rw [← h]
          constructor
          · intro b
            unfold addr_inv
            rw [show (set_cache (busupgr (set_cache s 0 (touch (get_cache s 0) base)) 0 base) 0
                { get_cache (busupgr (set_cache s 0 (touch (get_cache s 0) base)) 0 base) 0 with
                    lines := dset (get_cache (busupgr (set_cache s 0 (touch (get_cache s 0) base)) 0 base) 0).lines
                      base { line with state := State.M } }).c0
              = { (busupgr (set_cache s 0 (touch (get_cache s 0) base)) 0 base).c0 with
                    lines := dset (busupgr (set_cache s 0 (touch (get_cache s 0) base)) 0 base).c0.lines
                      base { line with state := State.M } } from rfl]
            rw [show (set_cache (busupgr (set_cache s 0 (touch (get_cache s 0) base)) 0 base) 0
                { get_cache (busupgr (set_cache s 0 (touch (get_cache s 0) base)) 0 base) 0 with
                    lines := dset (get_cache (busupgr (set_cache s 0 (touch (get_cache s 0) base)) 0 base) 0).lines
                      base { line with state := State.M } }).c1
              = (busupgr (set_cache s 0 (touch (get_cache s 0) base)) 0 base).c1 from rfl]
            by_cases hb : b = base
            · rw [hb, line_state_dset_same, huI]
              simp
            · rw [line_state_dset_other _ base b _ hb]
              rw [hu0, show (set_cache s 0 (touch (get_cache s 0) base)).c0
                = touch s.c0 base from rfl, line_state_touch s.c0 base b]
              rw [huo b hb, show (set_cache s 0 (touch (get_cache s 0) base)).c1
                = s.c1 from rfl]
              exact hinv b
          · rw [show (set_cache (busupgr (set_cache s 0 (touch (get_cache s 0) base)) 0 base) 0
                { get_cache (busupgr (set_cache s 0 (touch (get_cache s 0) base)) 0 base) 0 with
                    lines := dset (get_cache (busupgr (set_cache s 0 (touch (get_cache s 0) base)) 0 base) 0).lines
                      base { line with state := State.M } }).c1
              = (busupgr (set_cache s 0 (touch (get_cache s 0) base)) 0 base).c1 from rfl]
            exact huI
        · -- E: silent upgrade to M
          simp only [hst, reduceCtorEq, reduceIte, Option.some.injEq] at h
          have hd0 : dget s.c0.lines base = some line := hd
          have hcI : line_state s.c1 base = State.I := by
            refine (hinv base).1 (Or.inr ?_)
            simp [line_state, hd0, hst]
          rw [← h]
          constructor
          · intro b
            unfold addr_inv
            rw [show (set_cache (set_cache s 0 (touch (get_cache s 0) base)) 0
                { get_cache (set_cache s 0 (touch (get_cache s 0) base)) 0 with
                    lines := dset (get_cache (set_cache s 0 (touch (get_cache s 0) base)) 0).lines
                      base { line with state := State.M } }).c0
              = { touch s.c0 base with
                    lines := dset (touch s.c0 base).lines base { line with state := State.M } } from rfl]
            rw [show (set_cache (set_cache s 0 (touch (get_cache s 0) base)) 0
                { get_cache (set_cache s 0 (touch (get_cache s 0) base)) 0 with
                    lines := dset (get_cache (set_cache s 0 (touch (get_cache s 0) base)) 0).lines
                      base { line with state := State.M } }).c1
              = s.c1 from rfl]
            by_cases hb : b = base
            · rw [hb, line_state_dset_same, hcI]
              simp
            · rw [line_state_dset_other _ base b _ hb]
              rw [show line_state (touch s.c0 base) b = line_state s.c0 b from rfl]
              exact hinv b
          · exact hcI
        · -- M: stays M, only LRU touch
          simp only [hst, reduceCtorEq, reduceIte, Option.some.injEq] at h
          have hd0 : dget s.c0.lines base = some line := hd
          have hcI : line_state s.c1 base = State.I := by
            refine (hinv base).1 (Or.inl ?_)
            simp [line_state, hd0, hst]
          rw [← h]
          constructor
          · intro b
            unfold addr_inv
            rw [show (set_cache s 0 (touch (get_cache s 0) base)).c0
              = touch s.c0 base from rfl]
            rw [show (set_cache s 0 (touch (get_cache s 0) base)).c1 = s.c1 from rfl]
            rw [line_state_touch s.c0 base b]
            exact hinv b
          · exact hcI
      · rw [if_neg hne] at h
        obtain ⟨h1, h2, h3⟩ := write_miss0_inv s base hinv x h
        exact ⟨h1, h3⟩

theorem write_byte0_inv (s : Sys) (addr : Int) (value : Nat) (hinv : sys_inv s) :
    ∀ y, write_byte s 0 addr value = some y → sys_inv y := by
  intro y h
  simp only [write_byte] at h
  rcases hg : get_line_for_write s 0 addr with _ | x <;> rw [hg] at h
  · simp at h
  · simp only [Option.some_bind] at h
    obtain ⟨hxi, hxI⟩ := get_line_for_write0_inv s addr hinv x hg
    rcases hp : py_set x.2.2.data (addr - x.2.2.base) (value &&& 0xFF) with _ | d2 <;>
      rw [hp] at h
    · simp at h
    · simp only [Option.map_some', Option.some.injEq] at h
      rw [← h]
      intro b
      unfold addr_inv
      rw [show (set_cache x.1 0
          { get_cache x.1 0 with
              lines := dset (get_cache x.1 0).lines x.2.1 ⟨x.2.2.base, d2, State.M⟩ }).c0
        = { x.1.c0 with
              lines := dset x.1.c0.lines x.2.1 ⟨x.2.2.base, d2, State.M⟩ } from rfl]
      rw [show (set_cache x.1 0
          { get_cache x.1 0 with
              lines := dset (get_cache x.1 0).lines x.2.1 ⟨x.2.2.base, d2, State.M⟩ }).c1
        = x.1.c1 from rfl]
      by_cases hb : b = x.2.1
      · rw [hb, line_state_dset_same, hxI]
        simp
      · rw [line_state_dset_other _ x.2.1 b _ hb]
        exact hxi b

end Mesi

namespace Mesi

theorem write_miss1_inv (s : Sys) (base : Int) (hinv : sys_inv s) :
    ∀ x, write_miss s 1 base = some x →
      sys_inv x.1 ∧ x.2.1 = base ∧ line_state x.1.c0 x.2.1 = State.I := by
  intro x h
  simp only [write_miss] at h
  obtain ⟨hc1, hother, hI⟩ := busrdx1_spec s base
  rcases hi : install_line (get_cache (busrdx s 1 base).1 1) (busrdx s 1 base).1.mem
      base (busrdx s 1 base).2 State.M with _ | cml <;> rw [hi] at h
  · simp at h
  · simp only [Option.map_some', Option.some.injEq] at h
    obtain ⟨hline, hbase, hrest⟩ := install_spec _ _ _ _ _ _ hi
    rw [← h]
    refine ⟨?_, rfl, ?_⟩
    · intro b
      unfold addr_inv
      rw [show (set_cache { (busrdx s 1 base).1 with mem := cml.2.1 } 1 cml.1).c1
        = cml.1 from rfl]
      rw [show (set_cache { (busrdx s 1 base).1 with mem := cml.2.1 } 1 cml.1).c0
        = (busrdx s 1 base).1.c0 from rfl]
      by_cases hb : b = base
      · rw [hb, hbase, hI]
        simp
      · rw [hother b hb]
        rcases hrest b hb with hold | hIb
        · rw [hold, show get_cache (busrdx s 1 base).1 1
            = (busrdx s 1 base).1.c1 from rfl, hc1]
          exact hinv b
        · rw [hIb]
          simp
    · rw [show (set_cache { (busrdx s 1 base).1 with mem := cml.2.1 } 1 cml.1).c0
        = (busrdx s 1 base).1.c0 from rfl]
      exact hI

theorem get_line_for_read1_inv (s : Sys) (addr : Int) (hinv : sys_inv s) :
    ∀ x, get_line_for_read s 1 addr = some x → sys_inv x.1 := by
  intro x h
  simp only [get_line_for_read] at h
  rcases ha : align_base (get_cache s 1) addr with _ | base <;> rw [ha] at h
  · simp at h
  · simp only [Option.some_bind] at h
    rcases hd : dget (get_cache s 1).lines base with _ | line
    · simp only [hd] at h
      exact read_miss1_inv s base hinv x h
    · simp only [hd] at h
      by_cases hne : line.state ≠ State.I
      · rw [if_pos hne] at h
        simp only [Option.some.injEq] at h
        rw [← h]
        intro b
        unfold addr_inv
        rw [show (set_cache s 1 (touch (get_cache s 1) base)).c1
          = touch s.c1 base from rfl]
        rw [show (set_cache s 1 (touch (get_cache s 1) base)).c0 = s.c0 from rfl]
        rw [line_state_touch s.c1 base b]
        exact hinv b
      · rw [if_neg hne] at h
        exact read_miss1_inv s base hinv x h

theorem read_byte1_inv (s : Sys) (addr : Int) (hinv : sys_inv s) :
    ∀ y, read_byte s 1 addr = some y → sys_inv y.1 := by
  intro y h
  simp only [read_byte] at h
  rcases hg : get_line_for_read s 1 addr with _ | x <;> rw [hg] at h
  · simp at h
  · simp only [Option.some_bind] at h
    rcases hp : py_index x.2.2.data (addr - x.2.2.base) with _ | v <;> rw [hp] at h
    · simp at h
    · simp only [Option.map_some', Option.some.injEq] at h
      rw [← h]
      exact get_line_for_read1_inv s addr hinv x hg

theorem get_line_for_write1_inv (s : Sys) (addr : Int) (hinv : sys_inv s) :
    ∀ x, get_line_for_write s 1 addr = some x →
      sys_inv x.1 ∧ line_state x.1.c0 x.2.1 = State.I := by
  intro x h
  simp only [get_line_for_write] at h
  rcases ha : align_base (get_cache s 1) addr with _ | base <;> rw [ha] at h
  · simp at h
  · simp only [Option.some_bind] at h
    rcases hd : dget (get_cache s 1).lines base with _ | line
    · simp only [hd] at h
      obtain ⟨h1, h2, h3⟩ := write_miss1_inv s base hinv x h
      exact ⟨h1, h3⟩
    · simp only [hd] at h
      by_cases hne : line.state ≠ State.I
      · rw [if_pos hne] at h
        rcases hst : line.state with _ | _ | _ | _
        · exact absurd hst (by simpa using hne)
        · -- S: BusUpgr then upgrade to M
          simp only [hst, reduceCtorEq, reduceIte, Option.some.injEq] at h
          obtain ⟨hu1, huo, huI⟩ :=
            busupgr1_spec (set_cache s 1 (touch (get_cache s 1) base)) base
          rw [← h]
          constructor
          · intro b
            unfold addr_inv
            rw [show (set_cache (busupgr (set_cache s 1 (touch (get_cache s 1) base)) 1 base) 1
                { get_cache (busupgr (set_cache s 1 (touch (get_cache s 1) base)) 1 base) 1 with
                    lines := dset (get_cache (busupgr (set_cache s 1 (touch (get_cache s 1) base)) 1 base) 1).lines
                      base { line with state := State.M } }).c1
              = { (busupgr (set_cache s 1 (touch (get_cache s 1) base)) 1 base).c1 with
                    lines := dset (busupgr (set_cache s 1 (touch (get_cache s 1) base)) 1 base).c1.lines
                      base { line with state := State.M } } from rfl]
            rw [show (set_cache (busupgr (set_cache s 1 (touch (get_cache s 1) base)) 1 base) 1
                { get_cache (busupgr (set_cache s 1 (touch (get_cache s 1) base)) 1 base) 1 with
                    lines := dset (get_cache (busupgr (set_cache s 1 (touch (get_cache s 1) base)) 1 base) 1).lines
                      base { line with state := State.M } }).c0
              = (busupgr (set_cache s 1 (touch (get_cache s 1) base)) 1 base).c0 from rfl]
            by_cases hb : b = base
            · rw [hb, line_state_dset_same, huI]
              simp
            · rw [line_state_dset_other _ base b _ hb]
              rw [hu1, show (set_cache s 1 (touch (get_cache s 1) base)).c1
                = touch s.c1 base from rfl, line_state_touch s.c1 base b]
              rw [huo b hb, show (set_cache s 1 (touch (get_cache s 1) base)).c0
                = s.c0 from rfl]
              exact hinv b
          · rw [show (set_cache (busupgr (set_cache s 1 (touch (get_cache s 1) base)) 1 base) 1
                { get_cache (busupgr (set_cache s 1 (touch (get_cache s 1) base)) 1 base) 1 with
                    lines := dset (get_cache (busupgr (set_cache s 1 (touch (get_cache s 1) base)) 1 base) 1).lines
                      base { line with state := State.M } }).c0
              = (busupgr (set_cache s 1 (touch (get_cache s 1) base)) 1 base).c0 from rfl]
            exact huI
        · -- E: silent upgrade to M
          simp only [hst, reduceCtorEq, reduceIte, Option.some.injEq] at h
          have hd1 : dget s.c1.lines base = some line := hd
          have hcI : line_state s.c0 base = State.I := by
            refine (hinv base).2 (Or.inr ?_)
            simp [line_state, hd1, hst]
          rw [← h]
          constructor
          · intro b
            unfold addr_inv
            rw [show (set_cache (set_cache s 1 (touch (get_cache s 1) base)) 1
                { get_cache (set_cache s 1 (touch (get_cache s 1) base)) 1 with
                    lines := dset (get_cache (set_cache s 1 (touch (get_cache s 1) base)) 1).lines
                      base { line with state := State.M } }).c1
              = { touch s.c1 base with
                    lines := dset (touch s.c1 base).lines base { line with state := State.M } } from rfl]
            rw [show (set_cache (set_cache s 1 (touch (get_cache s 1) base)) 1
                { get_cache (set_cache s 1 (touch (get_cache s 1) base)) 1 with
                    lines := dset (get_cache (set_cache s 1 (touch (get_cache s 1) base)) 1).lines
                      base { line with state := State.M } }).c0
              = s.c0 from rfl]
            by_cases hb : b = base
            · rw [hb, line_state_dset_same, hcI]
              simp
            · rw [line_state_dset_other _ base b _ hb]
              rw [show line_state (touch s.c1 base) b = line_state s.c1 b from rfl]
              exact hinv b
          · exact hcI
        · -- M: stays M, only LRU touch
          simp only [hst, reduceCtorEq, reduceIte, Option.some.injEq] at h
          have hd1 : dget s.c1.lines base = some line := hd
          have hcI : line_state s.c0 base = State.I := by
            refine (hinv base).2 (Or.inl ?_)
            simp [line_state, hd1, hst]
          rw [← h]
          constructor
          · intro b
            unfold addr_inv
            rw [show (set_cache s 1 (touch (get_cache s 1) base)).c1
              = touch s.c1 base from rfl]
            rw [show (set_cache s 1 (touch (get_cache s 1) base)).c0 = s.c0 from rfl]
            rw [line_state_touch s.c1 base b]
            exact hinv b
          · exact hcI
      · rw [if_neg hne] at h
        obtain ⟨h1, h2, h3⟩ := write_miss1_inv s base hinv x h
        exact ⟨h1, h3⟩

theorem write_byte1_inv (s : Sys) (addr : Int) (value : Nat) (hinv : sys_inv s) :
    ∀ y, write_byte s 1 addr value = some y → sys_inv y := by
  intro y h
  simp only [write_byte] at h
  rcases hg : get_line_for_write s 1 addr with _ | x <;> rw [hg] at h
  · simp at h
  · simp only [Option.some_bind] at h
    obtain ⟨hxi, hxI⟩ := get_line_for_write1_inv s addr hinv x hg
    rcases hp : py_set x.2.2.data (addr - x.2.2.base) (value &&& 0xFF) with _ | d2 <;>
      rw [hp] at h
    · simp at h
    · simp only [Option.map_some', Option.some.injEq] at h
      rw [← h]
      intro b
      unfold addr_inv
      rw [show (set_cache x.1 1
          { get_cache x.1 1 with
              lines := dset (get_cache x.1 1).lines x.2.1 ⟨x.2.2.base, d2, State.M⟩ }).c1
        = { x.1.c1 with
              lines := dset x.1.c1.lines x.2.1 ⟨x.2.2.base, d2, State.M⟩ } from rfl]
      rw [show (set_cache x.1 1
          { get_cache x.1 1 with
              lines := dset (get_cache x.1 1).lines x.2.1 ⟨x.2.2.base, d2, State.M⟩ }).c0
        = x.1.c0 from rfl]
      by_cases hb : b = x.2.1
      · rw [hb, line_state_dset_same, hxI]
        simp
      · rw [line_state_dset_other _ x.2.1 b _ hb]
        exact hxi b

end Mesi

namespace Mesi

theorem mesi_run_op_inv (s : Sys) (op : MesiOp) (hinv : sys_inv s) :
    ∀ s2, run_op s op = some s2 → sys_inv s2 := by
  intro s2 h
  cases op with
  | read cache_id addr =>
      simp only [run_op] at h
      by_cases hc : cache_id = 0
      · rw [if_pos hc] at h
        rcases hr : read_byte s 0 addr with _ | y <;> rw [hr] at h
        · simp at h
        · simp only [Option.map_some', Option.some.injEq] at h
          rw [← h]
          exact read_byte0_inv s addr hinv y hr
      · rw [if_neg hc] at h
        rcases hr : read_byte s 1 addr with _ | y <;> rw [hr] at h
        · simp at h
        · simp only [Option.map_some', Option.some.injEq] at h
          rw [← h]
          exact read_byte1_inv s addr hinv y hr
  | write cache_id addr value =>
      simp only [run_op] at h
      by_cases hc : cache_id = 0
      · rw [if_pos hc] at h
        exact write_byte0_inv s addr value hinv s2 h
      · rw [if_neg hc] at h
        exact write_byte1_inv s addr value hinv s2 h

theorem mesi_run_ops_inv (ops : List MesiOp) :
    ∀ s s2, sys_inv s → run_ops s ops = some s2 → sys_inv s2 := by
  induction ops with
  | nil =>
      intro s s2 hinv h
      simp only [run_ops, Option.some.injEq] at h
      rw [← h]
      exact hinv
  | cons op rest ih =>
      intro s s2 hinv h
      simp only [run_ops] at h
      rcases ho : run_op s op with _ | s1 <;> rw [ho] at h
      · simp at h
      · simp only [Option.some_bind] at h
        exact ih s1 s2 (mesi_run_op_inv s op hinv s1 ho) h

theorem mesi_sys_inv_init (mem : Int → Nat) (bus_ls b0 l0 cap0 b1 l1 cap1 : Int) :
    sys_inv (init_sys mem bus_ls b0 l0 cap0 b1 l1 cap1) := by
  intro b
  unfold addr_inv
  simp [init_sys, line_state, dget]

/-- C1.  MESI mutual exclusion: for every sequence of `read_byte`/`write_byte`
operations by two `Cache` instances attached to one `Bus` (evictions included,
as they occur inside the miss paths), after every completed operation there is
no line base at which one cache is Modified or Exclusive while the other
cache's line for the same base is present and not Invalid. -/
theorem mesi_mutual_exclusion (mem : Int → Nat)
    (bus_ls b0 l0 cap0 b1 l1 cap1 : Int) (ops : List MesiOp) (s : Sys)
    (h : run_ops (init_sys mem bus_ls b0 l0 cap0 b1 l1 cap1) ops = some s) :
    ∀ b, ¬((line_state s.c0 b = State.M ∨ line_state s.c0 b = State.E) ∧
        ¬line_state s.c1 b = State.I) ∧
      ¬((line_state s.c1 b = State.M ∨ line_state s.c1 b = State.E) ∧
        ¬line_state s.c0 b = State.I) := by
  have hinv : sys_inv s :=
    mesi_run_ops_inv ops _ s (mesi_sys_inv_init mem bus_ls b0 l0 cap0 b1 l1 cap1) h
  intro b
  obtain ⟨h1, h2⟩ := hinv b
  exact ⟨fun hx => hx.2 (h1 hx.1), fun hx => hx.2 (h2 hx.1)⟩

/-- The system after cache 0 writes one byte at address 3 from reset
(zero-filled memory, line size 8, capacity 8 for both caches). -/
def mesi_demo : Sys :=
  (run_ops (init_sys (fun _ => 0) 8 0 8 8 0 8 8) [MesiOp.write 0 3 171]).getD
    (init_sys (fun _ => 0) 8 0 8 8 0 8 8)

/-- Witness for C1 at the concrete one-write run of `mesi_demo`, line base 0. -/
theorem mesi_mutual_exclusion_witness :
    ¬((line_state mesi_demo.c0 0 = State.M ∨ line_state mesi_demo.c0 0 = State.E) ∧
        ¬line_state mesi_demo.c1 0 = State.I) ∧
      ¬((line_state mesi_demo.c1 0 = State.M ∨ line_state mesi_demo.c1 0 = State.E) ∧
        ¬line_state mesi_demo.c0 0 = State.I) :=
  mesi_mutual_exclusion (fun _ => 0) 8 0 8 8 0 8 8 [MesiOp.write 0 3 171]
    mesi_demo (by rfl) 0

end Mesi
